import Mathlib

/-!
Verification of the Credential and Session Lifecycle Subsystem of the Paleta
web application against its specification.

The development shallowly embeds the relevant Python source:
- utils/pagination.py  : cursor codec, together with models of the Python
  library routines it calls, namely urlsafe base64, UTF-8 decoding, JSON
  serialisation and parsing, datetime isoformat and fromisoformat, and the
  int builtin.  Python exceptions are modelled by the Except monad over an
  inductive PyErr that distinguishes the exception classes the source can
  raise; the except clause of decode_cursor catches exactly ValueError
  subclasses, TypeError and KeyError, so uncaught classes propagate.
- utils/jwt_service.py : refresh token storage, lookup, rotation, revocation.
  The database table is a list of records in insertion order; SQLAlchemy
  first lookups become List.find?.  Cryptographic primitives, signature
  material and generated randomness are external inputs, passed through a
  Crypto structure and per-call environments, mirroring hashlib, werkzeug
  and the secrets module as external collaborators.
- routes/auth.py       : the password reset code flow.  The rate limiter is
  an external collaborator and enters as explicit booleans in request order;
  contact normalisation (utils/contact_normalizer.py is not part of the
  sources) is modelled by passing the already normalised destination, with
  the emptiness check of the handler kept.  Modelled from the spec: the
  PasswordResetToken model file is absent from the sources, so its record
  shape follows the spec and the fields used by routes/auth.py, the attempts
  counter starting at 0 and created_at defaulting to the insertion instant.

Datetimes stored by the application are naive UTC; in the token and reset
state machines only their ordering matters and they are modelled as Nat
seconds.  The cursor codec serialises real datetime fields and uses a
structural PyDateTime model.  Character class predicates follow the ASCII
fragment of the Python unicode predicates, which covers every value the
subsystem produces.
-/

namespace Paleta

instance [DecidableEq ε] [DecidableEq α] : DecidableEq (Except ε α) := fun a b =>
  match a, b with
  | .error e1, .error e2 =>
    if h : e1 = e2 then .isTrue (by rw [h]) else .isFalse (by simp [h])
  | .ok v1, .ok v2 =>
    if h : v1 = v2 then .isTrue (by rw [h]) else .isFalse (by simp [h])
  | .error _, .ok _ => .isFalse (by simp)
  | .ok _, .error _ => .isFalse (by simp)

/-- Python exception classes that the embedded code can raise.  valueError
covers ValueError and its subclasses binascii.Error, UnicodeDecodeError and
json.JSONDecodeError. -/
inductive PyErr where
  | valueError
  | typeError
  | keyError
  | overflowError
  | recursionError
deriving DecidableEq, Repr

/-- Exception classes caught by the except clause of decode_cursor, namely
ValueError, TypeError, KeyError and json.JSONDecodeError. -/
def pyErrCaught : PyErr → Bool
  | .valueError => true
  | .typeError => true
  | .keyError => true
  | .overflowError => false
  | .recursionError => false

/-- Replace the first element satisfying p, modelling an in-place mutation
of the single ORM object returned by a query. -/
def replaceFirst (p : α → Bool) (f : α → α) : List α → List α
  | [] => []
  | x :: xs => if p x then f x :: xs else x :: replaceFirst p f xs

/-- Python str.rstrip with the single strip character eq, used for the
padding strip after base64 encoding. -/
def rstripPad (cs : List Char) : List Char :=
  (cs.reverse.dropWhile (fun c => c = '=')).reverse

/-- Left brace character, kept out of string literals. -/
def lbrace : Char := Char.ofNat 123

/-- Right brace character, kept out of string literals. -/
def rbrace : Char := Char.ofNat 125

/-- Decimal digit character for d below 10. -/
def digitChar48 (d : Nat) : Char := Char.ofNat (48 + d)

/-- Decimal digits of n, most significant first, as produced by Python str
and repr of a nonnegative int. -/
def natRepr (n : Nat) : List Char :=
  if _h : n < 10 then [digitChar48 n]
  else natRepr (n / 10) ++ [digitChar48 (n % 10)]
  termination_by n
  decreasing_by exact Nat.div_lt_self (by omega) (by omega)

/-- Python repr of an int, with a leading minus sign for negatives. -/
def intRepr (n : Int) : List Char :=
  if n < 0 then '-' :: natRepr (-n).toNat else natRepr n.toNat

/-- Numeric value of a list of decimal digit characters. -/
def digitsVal (cs : List Char) : Nat :=
  cs.foldl (fun a c => 10 * a + (c.toNat - 48)) 0

/-- Zero padded fixed width decimal rendering, as Python percent formatting
with width w produces for values below 10 to the w. -/
def padNat (w n : Nat) : List Char :=
  List.replicate (w - (natRepr n).length) '0' ++ natRepr n

/-- Character of the urlsafe base64 alphabet at index k, for k below 64. -/
def b64UrlChar (k : Nat) : Char :=
  if k < 26 then Char.ofNat (65 + k)
  else if k < 52 then Char.ofNat (97 + (k - 26))
  else if k < 62 then Char.ofNat (48 + (k - 52))
  else if k = 62 then '-' else '_'

/-- base64.urlsafe_b64encode over bytes, processing three input bytes into
four alphabet characters, with trailing equals padding. -/
def b64EncodeChunks : List Nat → List Char
  | [] => []
  | [b1] => [b64UrlChar (b1 / 4), b64UrlChar (b1 % 4 * 16), '=', '=']
  | [b1, b2] =>
      [b64UrlChar (b1 / 4), b64UrlChar (b1 % 4 * 16 + b2 / 16),
       b64UrlChar (b2 % 16 * 4), '=']
  | b1 :: b2 :: b3 :: rest =>
      b64UrlChar (b1 / 4) :: b64UrlChar (b1 % 4 * 16 + b2 / 16) ::
      b64UrlChar (b2 % 16 * 4 + b3 / 64) :: b64UrlChar (b3 % 64) ::
      b64EncodeChunks rest

/-- Translation table applied by base64.urlsafe_b64decode before standard
decoding: minus to plus, underscore to slash. -/
def urlTranslate (c : Char) : Char :=
  if c = '-' then '+' else if c = '_' then '/' else c

/-- Index of a standard base64 alphabet character, none for other input. -/
def stdB64Val? (c : Char) : Option Nat :=
  if 65 ≤ c.toNat ∧ c.toNat ≤ 90 then some (c.toNat - 65)
  else if 97 ≤ c.toNat ∧ c.toNat ≤ 122 then some (c.toNat - 97 + 26)
  else if 48 ≤ c.toNat ∧ c.toNat ≤ 57 then some (c.toNat - 48 + 52)
  else if c = '+' then some 62
  else if c = '/' then some 63
  else none

/-- Core loop of binascii.a2b_base64 in non strict mode: characters outside
the alphabet are discarded, an equals sign closing a quad of at least two
data characters ends the data, and a leftover partial quad at the end of
input is a binascii.Error, a ValueError subclass. -/
def a2bLoop : List Char → List Nat → Nat → Except PyErr (List Nat)
  | [], quad, _ => if quad.isEmpty then .ok [] else .error .valueError
  | c :: rest, quad, pads =>
    if c = '=' then
      if 2 ≤ quad.length ∧ 4 ≤ quad.length + (pads + 1) then
        match quad with
        | [d1, d2] => .ok [d1 * 4 + d2 / 16]
        | [d1, d2, d3] => .ok [d1 * 4 + d2 / 16, d2 % 16 * 16 + d3 / 4]
        | _ => .error .valueError
      else a2bLoop rest quad (pads + 1)
    else
      match stdB64Val? c with
      | some d =>
        match quad with
        | [d1, d2, d3] =>
          match a2bLoop rest [] pads with
          | .ok tail =>
              .ok ((d1 * 4 + d2 / 16) :: (d2 % 16 * 16 + d3 / 4) ::
                   (d3 % 4 * 64 + d) :: tail)
          | .error e => .error e
        | _ => a2bLoop rest (quad ++ [d]) pads
      | none => a2bLoop rest quad pads

/-- base64.urlsafe_b64decode: translate the urlsafe alphabet to the standard
one, then decode in non strict mode. -/
def urlsafeB64Decode (cs : List Char) : Except PyErr (List Nat) :=
  a2bLoop (cs.map urlTranslate) [] 0

/-- The _pad_base64 helper of utils/pagination.py: append the number of
equals characters that makes the length a multiple of four. -/
def _pad_base64 (cs : List Char) : List Char :=
  cs ++ List.replicate ((4 - cs.length % 4) % 4) '='

/-- UTF-8 encoding of one character. -/
def utf8EncodeChar (c : Char) : List Nat :=
  let n := c.toNat
  if n < 128 then [n]
  else if n < 2048 then [192 + n / 64, 128 + n % 64]
  else if n < 65536 then [224 + n / 4096, 128 + n / 64 % 64, 128 + n % 64]
  else [240 + n / 262144, 128 + n / 4096 % 64, 128 + n / 64 % 64, 128 + n % 64]

/-- UTF-8 encoding of a string, as Python str.encode with encoding utf-8. -/
def utf8Encode : List Char → List Nat
  | [] => []
  | c :: cs => utf8EncodeChar c ++ utf8Encode cs

/-- Whether a byte is a UTF-8 continuation byte. -/
def utf8Cont (b : Nat) : Bool := 128 ≤ b ∧ b < 192

/-- One UTF-8 symbol: from a leading byte and the remaining bytes, the
decoded scalar value and the bytes after it, validating continuation
bytes, overlong forms, surrogates and the plane bound. -/
def utf8Step (b : Nat) (rest : List Nat) : Except PyErr (Nat × List Nat) :=
  if b < 128 then .ok (b, rest)
  else if b < 194 then .error .valueError
  else if b < 224 then
    match rest with
    | b2 :: rest2 =>
      if utf8Cont b2 then .ok ((b - 192) * 64 + (b2 - 128), rest2)
      else .error .valueError
    | [] => .error .valueError
  else if b < 240 then
    match rest with
    | b2 :: b3 :: rest3 =>
      if utf8Cont b2 ∧ utf8Cont b3 ∧ (b = 224 → 160 ≤ b2) ∧ (b = 237 → b2 < 160) then
        .ok ((b - 224) * 4096 + (b2 - 128) * 64 + (b3 - 128), rest3)
      else .error .valueError
    | _ => .error .valueError
  else if b < 245 then
    match rest with
    | b2 :: b3 :: b4 :: rest4 =>
      if utf8Cont b2 ∧ utf8Cont b3 ∧ utf8Cont b4 ∧
          (b = 240 → 144 ≤ b2) ∧ (b = 244 → b2 < 144) then
        .ok ((b - 240) * 262144 + (b2 - 128) * 4096 + (b3 - 128) * 64 + (b4 - 128), rest4)
      else .error .valueError
    | _ => .error .valueError
  else .error .valueError

/-- Decoding loop; the fuel argument only bounds the recursion and is
initialised to the byte count, which each symbol strictly consumes, so the
exhaustion branch is unreachable. -/
def utf8DecodeLoop : Nat → List Nat → Except PyErr (List Char)
  | _, [] => .ok []
  | 0, _ :: _ => .error .valueError
  | fuel + 1, b :: rest =>
    match utf8Step b rest with
    | .error e => .error e
    | .ok (n, rest2) =>
      match utf8DecodeLoop fuel rest2 with
      | .ok cs => .ok (Char.ofNat n :: cs)
      | .error e => .error e

/-- Validating UTF-8 decoder, as Python bytes.decode with encoding utf-8;
malformed input is a UnicodeDecodeError, a ValueError subclass. -/
def utf8Decode (bytes : List Nat) : Except PyErr (List Char) :=
  utf8DecodeLoop bytes.length bytes

/-- Python JSON values as produced by json.loads.  Non integral numbers are
kept as their exact truncation toward zero (jfloat), since the only consumer
in the source is the int builtin; IEEE rounding of float literals is not
modelled.  Infinity and NaN literals, accepted by the Python parser, are
distinguished because the int builtin treats them specially. -/
inductive JVal where
  | jnull
  | jbool (b : Bool)
  | jint (n : Int)
  | jfloat (trunc : Int)
  | jinf (neg : Bool)
  | jnan
  | jstr (s : List Char)
  | jarr (xs : List JVal)
  | jobj (fields : List (List Char × JVal))

/-- Hexadecimal digit character, lowercase, as the Python JSON encoder
emits in unicode escapes. -/
def hexChar (d : Nat) : Char :=
  if d < 10 then Char.ofNat (48 + d) else Char.ofNat (87 + d)

/-- Escape of one character in a JSON string under ensure_ascii, following
the CPython encoder: quote and backslash escaped, named control escapes,
unicode escapes for other controls and all non ASCII characters, including
surrogate pairs above the basic plane. -/
def pyJsonEscapeChar (c : Char) : List Char :=
  let n := c.toNat
  if c = '"' then ['\\', '"']
  else if c = '\\' then ['\\', '\\']
  else if n = 8 then ['\\', 'b']
  else if n = 9 then ['\\', 't']
  else if n = 10 then ['\\', 'n']
  else if n = 12 then ['\\', 'f']
  else if n = 13 then ['\\', 'r']
  else if n < 32 ∨ 127 ≤ n then
    if n < 65536 then
      ['\\', 'u', hexChar (n / 4096), hexChar (n / 256 % 16),
       hexChar (n / 16 % 16), hexChar (n % 16)]
    else
      let m := n - 65536
      let hi := 55296 + m / 1024
      let lo := 56320 + m % 1024
      ['\\', 'u', hexChar (hi / 4096), hexChar (hi / 256 % 16),
       hexChar (hi / 16 % 16), hexChar (hi % 16),
       '\\', 'u', hexChar (lo / 4096), hexChar (lo / 256 % 16),
       hexChar (lo / 16 % 16), hexChar (lo % 16)]
  else [c]

/-- Escaped body of a JSON string literal. -/
def pyJsonEscStr : List Char → List Char
  | [] => []
  | c :: cs => pyJsonEscapeChar c ++ pyJsonEscStr cs

/-- A JSON string literal with its quotes. -/
def pyJsonDumpStr (s : List Char) : List Char :=
  '"' :: pyJsonEscStr s ++ ['"']

mutual

/-- json.dumps with separators comma and colon and ensure_ascii, covering
the value shapes the application serialises; float repr is not modelled
beyond the special values. -/
def pyJsonDumps : JVal → List Char
  | .jnull => ['n', 'u', 'l', 'l']
  | .jbool true => ['t', 'r', 'u', 'e']
  | .jbool false => ['f', 'a', 'l', 's', 'e']
  | .jint n => intRepr n
  | .jfloat t => intRepr t
  | .jinf true => ['-', 'I', 'n', 'f', 'i', 'n', 'i', 't', 'y']
  | .jinf false => ['I', 'n', 'f', 'i', 'n', 'i', 't', 'y']
  | .jnan => ['N', 'a', 'N']
  | .jstr s => pyJsonDumpStr s
  | .jarr xs => '[' :: pyJsonDumpsElems xs ++ [']']
  | .jobj fields => lbrace :: pyJsonDumpsFields fields ++ [rbrace]

/-- Comma separated array elements. -/
def pyJsonDumpsElems : List JVal → List Char
  | [] => []
  | [x] => pyJsonDumps x
  | x :: y :: rest => pyJsonDumps x ++ ',' :: pyJsonDumpsElems (y :: rest)

/-- Comma separated object members, each a quoted key, a colon and a value. -/
def pyJsonDumpsFields : List (List Char × JVal) → List Char
  | [] => []
  | [(k, v)] => pyJsonDumpStr k ++ ':' :: pyJsonDumps v
  | (k, v) :: m :: rest =>
      pyJsonDumpStr k ++ ':' :: pyJsonDumps v ++ ',' :: pyJsonDumpsFields (m :: rest)

end

/-- JSON whitespace characters. -/
def jsonWs (c : Char) : Bool :=
  c = ' ' ∨ c.toNat = 9 ∨ c.toNat = 10 ∨ c.toNat = 13

/-- Skip JSON whitespace. -/
def skipWs (s : List Char) : List Char := s.dropWhile jsonWs

/-- Value of a hexadecimal digit character, none for other input. -/
def hexVal? (c : Char) : Option Nat :=
  if 48 ≤ c.toNat ∧ c.toNat ≤ 57 then some (c.toNat - 48)
  else if 97 ≤ c.toNat ∧ c.toNat ≤ 102 then some (c.toNat - 87)
  else if 65 ≤ c.toNat ∧ c.toNat ≤ 70 then some (c.toNat - 55)
  else none

/-- Body of a JSON string literal after the opening quote, with the
standard escapes; unescaped control characters are rejected as in the
strict Python decoder, and lone surrogate escapes, which Python would
keep as unpaired surrogates, are rejected since they have no Char
representation; no cursor level claim depends on them. -/
def parseJStringBody : List Char → Except PyErr (List Char × List Char)
  | [] => .error .valueError
  | c :: rest =>
    if c = '"' then .ok ([], rest)
    else if c = '\\' then
      match rest with
      | [] => .error .valueError
      | e :: rest2 =>
        if e = 'u' then
          match rest2 with
          | h1 :: h2 :: h3 :: h4 :: rest3 =>
            match hexVal? h1, hexVal? h2, hexVal? h3, hexVal? h4 with
            | some v1, some v2, some v3, some v4 =>
              let n := v1 * 4096 + v2 * 256 + v3 * 16 + v4
              if 55296 ≤ n ∧ n < 57344 then .error .valueError
              else
                match parseJStringBody rest3 with
                | .ok (s, r) => .ok (Char.ofNat n :: s, r)
                | .error err => .error err
            | _, _, _, _ => .error .valueError
          | _ => .error .valueError
        else
          match
            (if e = '"' then some '"'
             else if e = '\\' then some '\\'
             else if e = '/' then some '/'
             else if e = 'b' then some (Char.ofNat 8)
             else if e = 'f' then some (Char.ofNat 12)
             else if e = 'n' then some (Char.ofNat 10)
             else if e = 'r' then some (Char.ofNat 13)
             else if e = 't' then some (Char.ofNat 9)
             else none) with
          | some ec =>
            match parseJStringBody rest2 with
            | .ok (s, r) => .ok (ec :: s, r)
            | .error err => .error err
          | none => .error .valueError
    else if c.toNat < 32 then .error .valueError
    else
      match parseJStringBody rest with
      | .ok (s, r) => .ok (c :: s, r)
      | .error err => .error err

/-- Truncation toward zero of the exact rational written with the given
integer digits, fraction digits and decimal exponent. -/
def truncOfParts (intDs fracDs : List Char) (e : Int) : Nat :=
  let ds := intDs ++ fracDs
  let pointPos : Int := intDs.length + e
  if pointPos ≤ 0 then 0
  else if pointPos ≥ ds.length then
    digitsVal ds * 10 ^ (pointPos - ds.length).toNat
  else digitsVal (ds.take pointPos.toNat)

/-- JSON number after an optional leading minus sign already consumed:
an integer part without spurious leading zero, then optional fraction and
exponent; a plain integer literal produces jint, anything else jfloat with
its exact truncation. -/
def parseJNumBody (neg : Bool) (s : List Char) : Except PyErr (JVal × List Char) :=
  let intDs := s.takeWhile Char.isDigit
  let r1 := s.dropWhile Char.isDigit
  if intDs.isEmpty then .error .valueError
  else if intDs.length > 1 ∧ intDs.headI = '0' then .error .valueError
  else
    match r1 with
    | '.' :: r2 =>
      let fracDs := r2.takeWhile Char.isDigit
      let r3 := r2.dropWhile Char.isDigit
      if fracDs.isEmpty then .error .valueError
      else
        match r3 with
        | 'e' :: r4 | 'E' :: r4 =>
          let (esign, r5) :=
            match r4 with
            | '+' :: r5 => ((1 : Int), r5)
            | '-' :: r5 => ((-1 : Int), r5)
            | _ => ((1 : Int), r4)
          let expDs := r5.takeWhile Char.isDigit
          let r6 := r5.dropWhile Char.isDigit
          if expDs.isEmpty then .error .valueError
          else
            let t : Int := truncOfParts intDs fracDs (esign * digitsVal expDs)
            .ok (.jfloat (if neg then -t else t), r6)
        | _ =>
          let t : Int := truncOfParts intDs fracDs 0
          .ok (.jfloat (if neg then -t else t), r3)
    | 'e' :: r4 | 'E' :: r4 =>
      let (esign, r5) :=
        match r4 with
        | '+' :: r5 => ((1 : Int), r5)
        | '-' :: r5 => ((-1 : Int), r5)
        | _ => ((1 : Int), r4)
      let expDs := r5.takeWhile Char.isDigit
      let r6 := r5.dropWhile Char.isDigit
      if expDs.isEmpty then .error .valueError
      else
        let t : Int := truncOfParts intDs [] (esign * digitsVal expDs)
        .ok (.jfloat (if neg then -t else t), r6)
    | _ =>
      let v : Int := digitsVal intDs
      .ok (.jint (if neg then -v else v), r1)

/-- Whether the second list starts with the first. -/
def startsWithL : List Char → List Char → Bool
  | [], _ => true
  | _ :: _, [] => false
  | a :: as, b :: bs => a = b && startsWithL as bs

mutual

/-- Recursive descent JSON value scanner modelling json.loads.  The depth
argument models the interpreter recursion limit: each nesting level of a
container consumes one unit and exhaustion is a RecursionError, which the
Python scanner raises on deeply nested input.  The iter fuel of the member
and element loops is initialised above the remaining input length, so its
exhaustion branch is unreachable; the loops themselves are iterative in
Python and consume no recursion depth. -/
def parseJValue (depth : Nat) (s : List Char) : Except PyErr (JVal × List Char) :=
  match depth with
  | 0 => .error .recursionError
  | depth' + 1 =>
    let s1 := skipWs s
    match s1 with
    | [] => .error .valueError
    | c :: rest =>
      if c = '"' then
        match parseJStringBody rest with
        | .ok (str, r) => .ok (.jstr str, r)
        | .error e => .error e
      else if c = lbrace then parseJMembers depth' (rest.length + 1) true rest []
      else if c = '[' then parseJElems depth' (rest.length + 1) true rest []
      else if c = 't' then
        if startsWithL ['r', 'u', 'e'] rest then .ok (.jbool true, rest.drop 3)
        else .error .valueError
      else if c = 'f' then
        if startsWithL ['a', 'l', 's', 'e'] rest then .ok (.jbool false, rest.drop 4)
        else .error .valueError
      else if c = 'n' then
        if startsWithL ['u', 'l', 'l'] rest then .ok (.jnull, rest.drop 3)
        else .error .valueError
      else if c = 'N' then
        if startsWithL ['a', 'N'] rest then .ok (.jnan, rest.drop 2)
        else .error .valueError
      else if c = 'I' then
        if startsWithL ['n', 'f', 'i', 'n', 'i', 't', 'y'] rest then
          .ok (.jinf false, rest.drop 7)
        else .error .valueError
      else if c = '-' then
        match rest with
        | 'I' :: r2 =>
          if startsWithL ['n', 'f', 'i', 'n', 'i', 't', 'y'] r2 then
            .ok (.jinf true, r2.drop 7)
          else .error .valueError
        | _ => parseJNumBody true rest
      else if c.isDigit then parseJNumBody false s1
      else .error .valueError
  termination_by (depth, 0)
  decreasing_by all_goals simp_wf <;> omega

/-- Object member loop after the opening brace; afterFirst is false once a
member has been parsed, matching the comma placement of the grammar. -/
def parseJMembers (depth iter : Nat) (first : Bool) (s : List Char)
    (acc : List (List Char × JVal)) :
    Except PyErr (JVal × List Char) :=
  match iter with
  | 0 => .error .valueError
  | iter' + 1 =>
    let s1 := skipWs s
    match s1 with
    | [] => .error .valueError
    | c :: rest =>
      if first ∧ c = rbrace then .ok (.jobj acc.reverse, rest)
      else if c = '"' then
        match parseJStringBody rest with
        | .error e => .error e
        | .ok (key, r1) =>
          match skipWs r1 with
          | ':' :: r2 =>
            match parseJValue depth r2 with
            | .error e => .error e
            | .ok (v, r3) =>
              match skipWs r3 with
              | ',' :: r4 => parseJMembers depth iter' false r4 ((key, v) :: acc)
              | d :: r4 =>
                if d = rbrace then .ok (.jobj ((key, v) :: acc).reverse, r4)
                else .error .valueError
              | [] => .error .valueError
          | _ => .error .valueError
      else .error .valueError
  termination_by (depth, iter + 1)
  decreasing_by all_goals simp_wf <;> omega

/-- Array element loop after the opening bracket. -/
def parseJElems (depth iter : Nat) (first : Bool) (s : List Char)
    (acc : List JVal) :
    Except PyErr (JVal × List Char) :=
  match iter with
  | 0 => .error .valueError
  | iter' + 1 =>
    let s1 := skipWs s
    match s1 with
    | [] => .error .valueError
    | c :: rest =>
      if first ∧ c = ']' then .ok (.jarr acc.reverse, rest)
      else
        match parseJValue depth s1 with
        | .error e => .error e
        | .ok (v, r1) =>
          match skipWs r1 with
          | ',' :: r2 => parseJElems depth iter' false r2 (v :: acc)
          | ']' :: r2 => .ok (.jarr (v :: acc).reverse, r2)
          | _ => .error .valueError
  termination_by (depth, iter + 1)
  decreasing_by all_goals simp_wf <;> omega

end

/-- json.loads: parse one value and require only whitespace after it. -/
def pyJsonLoads (depth : Nat) (s : List Char) : Except PyErr JVal :=
  match parseJValue depth s with
  | .error e => .error e
  | .ok (v, rest) => if (skipWs rest).isEmpty then .ok v else .error .valueError

/-- Naive Python datetime, with the timezone free fields the application
stores; the database columns hold naive UTC datetimes. -/
structure PyDateTime where
  year : Nat
  month : Nat
  day : Nat
  hour : Nat
  minute : Nat
  second : Nat
  microsecond : Nat
deriving DecidableEq, Repr

/-- Gregorian leap year rule used by the datetime module. -/
def isLeapYear (y : Nat) : Bool :=
  y % 4 = 0 ∧ (y % 100 ≠ 0 ∨ y % 400 = 0)

/-- Days in a month of a given year. -/
def daysInMonth (y m : Nat) : Nat :=
  if m = 2 then (if isLeapYear y then 29 else 28)
  else if m = 4 ∨ m = 6 ∨ m = 9 ∨ m = 11 then 30
  else 31

/-- Field ranges a constructible datetime satisfies. -/
def PyDateTime.Valid (d : PyDateTime) : Prop :=
  1 ≤ d.year ∧ d.year ≤ 9999 ∧ 1 ≤ d.month ∧ d.month ≤ 12 ∧
  1 ≤ d.day ∧ d.day ≤ daysInMonth d.year d.month ∧
  d.hour ≤ 23 ∧ d.minute ≤ 59 ∧ d.second ≤ 59 ∧ d.microsecond ≤ 999999

instance (d : PyDateTime) : Decidable d.Valid := by
  unfold PyDateTime.Valid; infer_instance

/-- datetime.isoformat of a naive datetime: date, the T separator, time to
seconds, and a six digit fraction exactly when the microsecond field is
nonzero. -/
def isoformat (d : PyDateTime) : List Char :=
  padNat 4 d.year ++ '-' :: padNat 2 d.month ++ '-' :: padNat 2 d.day ++
  'T' :: padNat 2 d.hour ++ ':' :: padNat 2 d.minute ++ ':' :: padNat 2 d.second ++
  (if d.microsecond = 0 then [] else '.' :: padNat 6 d.microsecond)

/-- Read exactly w decimal digits. -/
def parseNDigits (w : Nat) (s : List Char) : Except PyErr (Nat × List Char) :=
  let pre := s.take w
  if pre.length = w ∧ pre.all Char.isDigit then .ok (digitsVal pre, s.drop w)
  else .error .valueError

/-- Expect one specific character. -/
def expectChar (c : Char) (s : List Char) : Except PyErr (List Char) :=
  match s with
  | d :: rest => if d = c then .ok rest else .error .valueError
  | [] => .error .valueError

/-- Time part of an isoformat string after the date and an arbitrary one
character separator: hour, then optional minute, second and fraction of up
to six digits.  Timezone suffixes, fully numeric basic forms and comma
fractions, which the Python parser additionally accepts, are not modelled:
the application serialises naive datetimes only and every claim concerns
either isoformat output or inputs on which both reject. -/
def parseTimePart (s : List Char) : Except PyErr (Nat × Nat × Nat × Nat) :=
  match parseNDigits 2 s with
  | .error e => .error e
  | .ok (h, r1) =>
    match r1 with
    | [] => .ok (h, 0, 0, 0)
    | ':' :: r2 =>
      match parseNDigits 2 r2 with
      | .error e => .error e
      | .ok (mi, r3) =>
        match r3 with
        | [] => .ok (h, mi, 0, 0)
        | ':' :: r4 =>
          match parseNDigits 2 r4 with
          | .error e => .error e
          | .ok (sec, r5) =>
            match r5 with
            | [] => .ok (h, mi, sec, 0)
            | '.' :: r6 =>
              let ds := r6.takeWhile Char.isDigit
              if 1 ≤ ds.length ∧ ds.length ≤ 6 ∧ (r6.dropWhile Char.isDigit).isEmpty then
                .ok (h, mi, sec, digitsVal ds * 10 ^ (6 - ds.length))
              else .error .valueError
            | _ => .error .valueError
        | _ => .error .valueError
    | _ => .error .valueError

/-- datetime.fromisoformat on the naive fragment: a dashed date, optionally
followed by a separator character and a time part, with the field range
checks of the datetime constructor. -/
def pyFromIsoformat (s : List Char) : Except PyErr PyDateTime :=
  match parseNDigits 4 s with
  | .error e => .error e
  | .ok (y, r1) =>
    match expectChar '-' r1 with
    | .error e => .error e
    | .ok r2 =>
      match parseNDigits 2 r2 with
      | .error e => .error e
      | .ok (mo, r3) =>
        match expectChar '-' r3 with
        | .error e => .error e
        | .ok r4 =>
          match parseNDigits 2 r4 with
          | .error e => .error e
          | .ok (d, r5) =>
            match
              (match r5 with
               | [] => .ok (0, 0, 0, 0)
               | _sep :: r6 => parseTimePart r6 :
                Except PyErr (Nat × Nat × Nat × Nat)) with
            | .error e => .error e
            | .ok (h, mi, sec, ms) =>
              if 1 ≤ y ∧ 1 ≤ mo ∧ mo ≤ 12 ∧ 1 ≤ d ∧ d ≤ daysInMonth y mo ∧
                  h ≤ 23 ∧ mi ≤ 59 ∧ sec ≤ 59 then
                .ok ⟨y, mo, d, h, mi, sec, ms⟩
              else .error .valueError

/-- Python subscript v at a string key: object members resolve with the
last duplicate winning as in dict construction, a missing key is a
KeyError, and every non object value is a TypeError. -/
def pySubscript (v : JVal) (key : List Char) : Except PyErr JVal :=
  match v with
  | .jobj fields =>
    match fields.foldl (fun acc kv => if kv.1 = key then some kv.2 else acc) none with
    | some w => .ok w
    | none => .error .keyError
  | _ => .error .typeError

/-- The int builtin applied to a decoded JSON value: ints pass through,
bools coerce, finite floats truncate toward zero, infinities overflow, NaN
is a ValueError, strings parse as an optionally signed digit string after
stripping whitespace, and remaining values are TypeErrors. -/
def pyIntOf (v : JVal) : Except PyErr Int :=
  match v with
  | .jint n => .ok n
  | .jbool b => .ok (if b then 1 else 0)
  | .jfloat t => .ok t
  | .jinf _ => .error .overflowError
  | .jnan => .error .valueError
  | .jstr s =>
    let s1 := (s.dropWhile jsonWs).reverse.dropWhile jsonWs |>.reverse
    let (neg, s2) :=
      match s1 with
      | '-' :: r => (true, r)
      | '+' :: r => (false, r)
      | _ => (false, s1)
    if s2.isEmpty ∨ ¬ s2.all Char.isDigit then .error .valueError
    else .ok (if neg then -(digitsVal s2 : Int) else (digitsVal s2 : Int))
  | _ => .error .typeError

/-- Default CPython recursion limit, which bounds JSON nesting depth. -/
def pyRecursionLimit : Nat := 1000

/-- utils/pagination.py encode_cursor: serialise the created_at isoformat
and the id in a two member JSON object with compact separators, encode the
UTF-8 bytes in urlsafe base64 and strip the padding. -/
def encode_cursor (created_at : PyDateTime) (item_id : Int) : List Char :=
  rstripPad (b64EncodeChunks (utf8Encode (pyJsonDumps
    (.jobj [("created_at".toList, .jstr (isoformat created_at)),
            ("id".toList, .jint item_id)]))))

/-- Body of the try block of decode_cursor, propagating every exception. -/
def decodeCursorBody (cs : List Char) : Except PyErr (PyDateTime × Int) :=
  match urlsafeB64Decode (_pad_base64 cs) with
  | .error e => .error e
  | .ok bytes =>
    match utf8Decode bytes with
    | .error e => .error e
    | .ok chars =>
      match pyJsonLoads pyRecursionLimit chars with
      | .error e => .error e
      | .ok payload =>
        match pySubscript payload "created_at".toList with
        | .error e => .error e
        | .ok caVal =>
          match
            (match caVal with
             | .jstr str => pyFromIsoformat str
             | _ => .error .typeError) with
          | .error e => .error e
          | .ok dt =>
            match pySubscript payload "id".toList with
            | .error e => .error e
            | .ok idVal =>
              match pyIntOf idVal with
              | .error e => .error e
              | .ok n => .ok (dt, n)

/-- utils/pagination.py decode_cursor: None or the empty string decode to
the absent value; otherwise the body runs and the except clause turns the
caught exception classes into the absent value, while other exceptions
propagate out of the function. -/
def decode_cursor (cursor : Option (List Char)) :
    Except PyErr (Option (PyDateTime × Int)) :=
  match cursor with
  | none => .ok none
  | some cs =>
    if cs.isEmpty then .ok none
    else
      match decodeCursorBody cs with
      | .ok p => .ok (some p)
      | .error e => if pyErrCaught e then .ok none else .error e

/-- Error codes raised by utils/jwt_service.py on the refresh paths; the
AuthError message and HTTP status accompany the code unchanged and carry no
information beyond it. -/
inductive AuthCode where
  | AUTH_INVALID_REFRESH
  | AUTH_REFRESH_EXPIRED
deriving DecidableEq, Repr

/-- External cryptographic primitives: sha256hex models the hexadecimal
sha256 digest of _hash_token, scryptHash models werkzeug
generate_password_hash with a fixed salt, so that check_password_hash
becomes a digest comparison; claims that need distinct inputs to produce
distinct digests make that collision freeness explicit. -/
structure Crypto where
  sha256hex : String → String
  scryptHash : String → String

/-- werkzeug check_password_hash under the deterministic digest model. -/
def checkPasswordHash (crypto : Crypto) (stored candidate : String) : Bool :=
  stored = crypto.scryptHash candidate

/-- Configuration values read from the Flask app config; Python coerces
them with int, here they are integers already. -/
structure Config where
  jwt_access_ttl_minutes : Int
  jwt_refresh_ttl_days : Int
  reset_code_ttl_minutes : Int
  reset_max_attempts : Int
deriving Repr

/-- Per call environment of token issuance: the base64 segments of the
signed JWT produced by jwt.encode, and the 48 random bytes drawn by
secrets.token_urlsafe for the refresh secret. -/
structure IssueEnv where
  headerB64 : String
  payloadB64 : String
  sigB64 : String
  refreshBytes : List Nat

/-- The three part dotted form of a signed JWT as jwt.encode returns it. -/
def jwtEncode (env : IssueEnv) : String :=
  env.headerB64 ++ "." ++ env.payloadB64 ++ "." ++ env.sigB64

/-- secrets.token_urlsafe over the drawn bytes: urlsafe base64 without
padding. -/
def token_urlsafe (bytes : List Nat) : String :=
  String.mk (rstripPad (b64EncodeChunks bytes))

/-- Python whitespace stripped by str.strip, ASCII fragment. -/
def pyIsSpace (c : Char) : Bool :=
  c = ' ' ∨ c.toNat = 9 ∨ c.toNat = 10 ∨ c.toNat = 13 ∨ c.toNat = 11 ∨ c.toNat = 12

/-- str.strip on both ends. -/
def pyStrip (s : String) : String :=
  String.mk ((s.toList.dropWhile pyIsSpace).reverse.dropWhile pyIsSpace |>.reverse)

/-- The device_name normalisation of _issue_refresh_token: empty or
whitespace only names are stored as null. -/
def normDeviceName (dn : Option String) : Option String :=
  let t := pyStrip (match dn with | none => "" | some s => s)
  if t = "" then none else some t

/-- A persisted row of the refresh_tokens table. -/
structure RefreshToken where
  id : Nat
  user_id : Nat
  token_hash : String
  device_id : String
  device_name : Option String
  created_at : Nat
  expires_at : Nat
  last_used_at : Nat
  revoked_at : Option Nat
deriving DecidableEq, Repr, Inhabited

/-- Fresh autoincrement primary key for an insert. -/
def nextRefreshId (db : List RefreshToken) : Nat :=
  (db.map (fun t => t.id)).foldr max 0 + 1

/-- The token pair dictionary returned by issue_token_pair; the structure
has exactly the four fields of the stable contract. -/
structure TokenPair where
  access_token : String
  refresh_token : String
  expires_in : Int
  token_type : String
deriving DecidableEq, Repr, Inhabited

/-- jwt_service._issue_access_token: the signed token and the ttl in
seconds, with the one minute floor applied to the configured minutes. -/
def _issue_access_token (cfg : Config) (env : IssueEnv) : String × Int :=
  (jwtEncode env, max 1 cfg.jwt_access_ttl_minutes * 60)

/-- jwt_service._issue_refresh_token: draw the secret, store only its hash
with device metadata and expiry now plus the floored day ttl, and return
the raw secret.  A day is 86400 seconds of the Nat clock. -/
def _issue_refresh_token (cfg : Config) (crypto : Crypto) (env : IssueEnv)
    (user_id : Nat) (device_id : String) (device_name : Option String)
    (now : Nat) (db : List RefreshToken) : String × List RefreshToken :=
  let raw := token_urlsafe env.refreshBytes
  let row : RefreshToken :=
    { id := nextRefreshId db
      user_id := user_id
      token_hash := crypto.sha256hex raw
      device_id := device_id
      device_name := normDeviceName device_name
      created_at := now
      expires_at := now + (max 1 cfg.jwt_refresh_ttl_days).toNat * 86400
      last_used_at := now
      revoked_at := none }
  (raw, db ++ [row])

/-- jwt_service.issue_token_pair. -/
def issue_token_pair (cfg : Config) (crypto : Crypto) (env : IssueEnv)
    (user_id : Nat) (device_id : String) (device_name : Option String)
    (now : Nat) (db : List RefreshToken) : TokenPair × List RefreshToken :=
  let (access, expiresIn) := _issue_access_token cfg env
  let (rawRefresh, db1) :=
    _issue_refresh_token cfg crypto env user_id device_id device_name now db
  ({ access_token := access
     refresh_token := rawRefresh
     expires_in := expiresIn
     token_type := "Bearer" }, db1)

/-- jwt_service.get_active_refresh_token: hash the input, find the first
row with that hash, reject missing rows and revoked rows as invalid and
rows at or past expiry as expired. -/
def get_active_refresh_token (crypto : Crypto) (raw : String) (now : Nat)
    (db : List RefreshToken) : Except AuthCode RefreshToken :=
  match db.find? (fun t => t.token_hash = crypto.sha256hex raw) with
  | none => .error .AUTH_INVALID_REFRESH
  | some t =>
    match t.revoked_at with
    | some _ => .error .AUTH_INVALID_REFRESH
    | none => if t.expires_at ≤ now then .error .AUTH_REFRESH_EXPIRED else .ok t

/-- Revocation update applied to the row object the lookup returned. -/
def revokeRow (now : Nat) (t : RefreshToken) : RefreshToken :=
  { t with revoked_at := some now, last_used_at := now }

/-- jwt_service.rotate_refresh_token: validate the presented secret, mark
the found row revoked and last used now, and issue a fresh pair for the
same user with the caller supplied device identity. -/
def rotate_refresh_token (cfg : Config) (crypto : Crypto) (env : IssueEnv)
    (raw device_id : String) (device_name : Option String) (now : Nat)
    (db : List RefreshToken) :
    Except AuthCode ((Nat × TokenPair) × List RefreshToken) :=
  match get_active_refresh_token crypto raw now db with
  | .error e => .error e
  | .ok t =>
    let db1 := replaceFirst (fun r => r.token_hash = t.token_hash) (revokeRow now) db
    let (pair, db2) :=
      issue_token_pair cfg crypto env t.user_id device_id device_name now db1
    .ok ((t.user_id, pair), db2)

/-- jwt_service.revoke_refresh_token: report whether a row with the hash
exists, revoking it if not yet revoked. -/
def revoke_refresh_token (crypto : Crypto) (raw : String) (now : Nat)
    (db : List RefreshToken) : Bool × List RefreshToken :=
  match db.find? (fun t => t.token_hash = crypto.sha256hex raw) with
  | none => (false, db)
  | some t =>
    match t.revoked_at with
    | some _ => (true, db)
    | none =>
      (true, replaceFirst (fun r => r.token_hash = t.token_hash) (revokeRow now) db)

/-- One store operation of the refresh token subsystem, carrying its own
call environment and clock instant. -/
inductive StoreOp where
  | opIssue (cfg : Config) (env : IssueEnv) (user_id : Nat)
      (device_id : String) (device_name : Option String) (now : Nat)
  | opRotate (cfg : Config) (env : IssueEnv) (raw device_id : String)
      (device_name : Option String) (now : Nat)
  | opRevoke (raw : String) (now : Nat)

/-- Database state after one store operation; a failed rotation raises
before any mutation, leaving the table unchanged. -/
def applyOp (crypto : Crypto) (db : List RefreshToken) : StoreOp → List RefreshToken
  | .opIssue cfg env uid did dn now => (issue_token_pair cfg crypto env uid did dn now db).2
  | .opRotate cfg env raw did dn now =>
    match rotate_refresh_token cfg crypto env raw did dn now db with
    | .ok (_, db1) => db1
    | .error _ => db
  | .opRevoke raw now => (revoke_refresh_token crypto raw now db).2

/-- Database state after a sequence of store operations. -/
def applyOps (crypto : Crypto) (db : List RefreshToken) : List StoreOp → List RefreshToken
  | [] => db
  | op :: ops => applyOps crypto (applyOp crypto db op) ops

/-- The user columns the reset flow touches. -/
structure User where
  id : Nat
  username : String
  password_hash : String
deriving DecidableEq, Repr

/-- A user contact row with its optional unique email and phone. -/
structure UserContact where
  user_id : Nat
  email : Option String
  phone : Option String
deriving DecidableEq, Repr

/-- Modelled from the spec: the PasswordResetToken model file is not among
the sources; the fields follow the spec and the columns routes/auth.py
reads and writes, with the attempts counter starting at 0 on insert and
created_at defaulting to the insertion instant. -/
structure PasswordResetToken where
  id : Nat
  user_id : Nat
  channel : String
  destination : String
  code_hash : String
  attempts : Nat
  created_at : Nat
  expires_at : Nat
  used_at : Option Nat
deriving DecidableEq, Repr

/-- Fresh autoincrement primary key for a reset token insert. -/
def nextResetId (tokens : List PasswordResetToken) : Nat :=
  (tokens.map (fun t => t.id)).foldr max 0 + 1

/-- Mutable state the reset handlers read and write: the user table and the
password_reset_token table.  Contacts are read only for these handlers and
are passed separately. -/
structure ResetState where
  users : List User
  tokens : List PasswordResetToken
deriving DecidableEq, Repr

/-- routes/auth.py _find_user_contact: first contact whose email or phone
equals the normalised destination, per channel. -/
def _find_user_contact (contacts : List UserContact) (channel destination : String) :
    Option UserContact :=
  if channel = "email" then contacts.find? (fun c => c.email = some destination)
  else if channel = "phone" then contacts.find? (fun c => c.phone = some destination)
  else none

/-- Contact resolution combined with the relationship load of its user row;
either the contact or the user missing makes the lookup fail. -/
def resolveUser (contacts : List UserContact) (users : List User)
    (channel destination : String) : Option User :=
  match _find_user_contact contacts channel destination with
  | none => none
  | some c => users.find? (fun u => u.id = c.user_id)

/-- Python str.isdigit, ASCII fragment: nonempty and all digits. -/
def pyIsDigitStr (s : String) : Bool :=
  ¬ s.toList.isEmpty ∧ s.toList.all Char.isDigit

/-- Lowercased characters, ASCII fragment of str.lower. -/
def lowerL (cs : List Char) : List Char := cs.map Char.toLower

/-- Python substring membership needle in haystack. -/
def isSubstringL (needle : List Char) : List Char → Bool
  | [] => needle.isEmpty
  | c :: rest => startsWithL needle (c :: rest) || isSubstringL needle rest

/-- Rejection reasons of _validate_password_strength, in check order. -/
inductive PwdErr where
  | badLength
  | hasSpace
  | noUppercase
  | noLowercase
  | noDigit
  | noSpecial
  | containsUsername
deriving DecidableEq, Repr

/-- routes/auth.py _validate_password_strength: length window, no spaces,
at least one uppercase, lowercase, digit and non alphanumeric character,
and the username must not occur case insensitively in the password. -/
def _validate_password_strength (password : String) (username : Option String) :
    Option PwdErr :=
  let cs := password.toList
  if ¬ (10 ≤ cs.length ∧ cs.length ≤ 128) then some .badLength
  else if cs.any pyIsSpace then some .hasSpace
  else if ¬ cs.any Char.isUpper then some .noUppercase
  else if ¬ cs.any Char.isLower then some .noLowercase
  else if ¬ cs.any Char.isDigit then some .noDigit
  else if ¬ cs.any (fun c => ¬ c.isAlphanum) then some .noSpecial
  else
    match username with
    | some un =>
      if ¬ un.toList.isEmpty ∧ isSubstringL (lowerL un.toList) (lowerL cs) then
        some .containsUsername
      else none
    | none => none

/-- Outcome of a forgot password POST; accepted carries whether a code was
really issued, which the uniform flash message hides from the caller. -/
inductive ForgotOutcome where
  | rateLimited
  | invalidChannel
  | invalidContact
  | accepted (issued : Bool)
deriving DecidableEq, Repr

/-- Supersession condition of the forgot handler: an active code of the
user, regardless of channel and destination. -/
def supersedes (uid now : Nat) (t : PasswordResetToken) : Bool :=
  t.user_id = uid ∧ t.used_at = none ∧ now < t.expires_at

/-- The update statement marking every currently active code of the user
as used. -/
def supersedeAll (uid now : Nat) (tokens : List PasswordResetToken) :
    List PasswordResetToken :=
  tokens.map (fun t => if supersedes uid now t then { t with used_at := some now } else t)

/-- routes/auth.py forgot_password POST, after form parsing, with the two
rate limiter consultations as externally supplied booleans in request
order and the destination already normalised (the normaliser module is not
among the sources; an unnormalisable contact arrives as the empty string).
The generated six digit random code arrives as genCode.  When the contact
resolves, every active code of the user is superseded and a fresh hashed
code with the floored minute ttl is inserted. -/
def forgot_password (cfg : Config) (crypto : Crypto) (contacts : List UserContact)
    (limitedIp limitedContact : Bool) (channel destination genCode : String)
    (now : Nat) (st : ResetState) : ForgotOutcome × ResetState :=
  if limitedIp then (.rateLimited, st)
  else if ¬ (channel = "email" ∨ channel = "phone") then (.invalidChannel, st)
  else if destination = "" then (.invalidContact, st)
  else if limitedContact then (.rateLimited, st)
  else
    match resolveUser contacts st.users channel destination with
    | none => (.accepted false, st)
    | some u =>
      let expires := now + 60 * (max 5 cfg.reset_code_ttl_minutes).toNat
      let superseded := supersedeAll u.id now st.tokens
      let row : PasswordResetToken :=
        { id := nextResetId st.tokens
          user_id := u.id
          channel := channel
          destination := destination
          code_hash := crypto.scryptHash genCode
          attempts := 0
          created_at := now
          expires_at := expires
          used_at := none }
      (.accepted true, { st with tokens := superseded ++ [row] })

/-- Outcome of a reset password POST, one constructor per flash and
redirect the handler can produce. -/
inductive ResetOutcome where
  | rateLimited
  | invalidChannel
  | invalidContact
  | invalidCodeFormat
  | passwordsDoNotMatch
  | contactNotFound
  | codeNotFound
  | attemptsExceeded
  | codeMismatch
  | weakPassword (e : PwdErr)
  | samePassword
  | success
deriving DecidableEq, Repr

/-- Whether a code row matches the confirmation lookup: same user, channel
and destination, not used, not expired. -/
def resetLookupMatch (uid : Nat) (channel destination : String) (now : Nat)
    (t : PasswordResetToken) : Bool :=
  t.user_id = uid ∧ t.channel = channel ∧ t.destination = destination ∧
  t.used_at = none ∧ now < t.expires_at

/-- The order_by created_at descending first lookup: among matching rows
the one with the greatest created_at, the earliest inserted winning ties,
which the SQL leaves unspecified. -/
def newestActiveToken (uid : Nat) (channel destination : String) (now : Nat)
    (tokens : List PasswordResetToken) : Option PasswordResetToken :=
  (tokens.filter (resetLookupMatch uid channel destination now)).foldl
    (fun best t =>
      match best with
      | none => some t
      | some b => if b.created_at < t.created_at then some t else some b)
    none

/-- routes/auth.py reset_password POST, after form parsing, with the rate
limiter booleans in request order and the destination already normalised.
The handler validates the request shape, resolves the contact, loads the
newest active code, enforces the attempt ceiling without incrementing,
counts a mismatch, then checks the password policy, and on success rehashes
the user password, consumes the matched code and supersedes every other
active code of the user. -/
def reset_password (cfg : Config) (crypto : Crypto) (contacts : List UserContact)
    (limitedIp limitedContact : Bool)
    (channel destination code new_password confirm_password : String)
    (now : Nat) (st : ResetState) : ResetOutcome × ResetState :=
  if limitedIp then (.rateLimited, st)
  else if ¬ (channel = "email" ∨ channel = "phone") then (.invalidChannel, st)
  else if destination = "" then (.invalidContact, st)
  else if ¬ (pyIsDigitStr code ∧ code.length = 6) then (.invalidCodeFormat, st)
  else if new_password ≠ confirm_password then (.passwordsDoNotMatch, st)
  else
    match resolveUser contacts st.users channel destination with
    | none => (.contactNotFound, st)
    | some u =>
      if limitedContact then (.rateLimited, st)
      else
        match newestActiveToken u.id channel destination now st.tokens with
        | none => (.codeNotFound, st)
        | some tok =>
          if max 3 cfg.reset_max_attempts ≤ (tok.attempts : Int) then
            (.attemptsExceeded, st)
          else if ¬ checkPasswordHash crypto tok.code_hash code then
            (.codeMismatch,
             { st with
                tokens := replaceFirst (fun t => t.id = tok.id)
                  (fun t => { t with attempts := t.attempts + 1 }) st.tokens })
          else
            match _validate_password_strength new_password (some u.username) with
            | some e => (.weakPassword e, st)
            | none =>
              if checkPasswordHash crypto u.password_hash new_password then
                (.samePassword, st)
              else
                let users1 := replaceFirst (fun v => v.id = u.id)
                  (fun v => { v with password_hash := crypto.scryptHash new_password })
                  st.users
                let tokens1 := replaceFirst (fun t => t.id = tok.id)
                  (fun t => { t with used_at := some now }) st.tokens
                let tokens2 := tokens1.map (fun t =>
                  if t.user_id = u.id ∧ t.used_at = none ∧ now < t.expires_at ∧
                      t.id ≠ tok.id then
                    { t with used_at := some now }
                  else t)
                (.success, { users := users1, tokens := tokens2 })

/-- Active reset codes of a user at an instant: not used and not expired,
the same condition the supersession update selects. -/
def activeResetCodes (uid now : Nat) (tokens : List PasswordResetToken) :
    List PasswordResetToken :=
  tokens.filter (supersedes uid now)

/-- Identity instantiation of the external primitives, used by concrete
evaluations. -/
def idCrypto : Crypto := ⟨fun s => s, fun s => s⟩

/-- A concrete configuration with the default ttl values and five allowed
reset attempts. -/
def defCfg : Config := ⟨15, 30, 15, 5⟩

/-- A concrete issuance environment. -/
def defEnv : IssueEnv := ⟨"hdr", "pld", "sig", List.replicate 48 7⟩

/-!  Theorems.  -/

theorem find?_cons_eq (p : α → Bool) (a : α) (l : List α) :
    (a :: l).find? p = if p a then some a else l.find? p := by
  cases h : p a <;> simp [List.find?_cons, h]

/-- A row with the given hash is found and is revoked. -/
def FoundRevoked (h : String) (db : List RefreshToken) : Prop :=
  ∃ t, db.find? (fun r => r.token_hash = h) = some t ∧ t.revoked_at ≠ none

theorem FoundRevoked_replaceFirst (H H' : String) (now : Nat)
    (db : List RefreshToken) (hf : FoundRevoked H db) :
    FoundRevoked H (replaceFirst (fun r => r.token_hash = H') (revokeRow now) db) := by
  induction db with
  | nil => obtain ⟨t, ht, _⟩ := hf; simp [List.find?] at ht
  | cons x xs ih =>
    obtain ⟨t, ht, hrev⟩ := hf
    rw [find?_cons_eq] at ht
    unfold replaceFirst
    by_cases hx : x.token_hash = H
    · rw [if_pos (by simpa using hx)] at ht
      have hxt : x = t := by simpa using ht
      subst hxt
      by_cases hx' : x.token_hash = H'
      · rw [if_pos (by simpa using hx')]
        refine ⟨revokeRow now x, ?_, by simp [revokeRow]⟩
        rw [find?_cons_eq, if_pos (by simp [revokeRow, hx])]
      · rw [if_neg (by simpa using hx')]
        refine ⟨x, ?_, hrev⟩
        rw [find?_cons_eq, if_pos (by simpa using hx)]
    · rw [if_neg (by simpa using hx)] at ht
      by_cases hx' : x.token_hash = H'
      · rw [if_pos (by simpa using hx')]
        refine ⟨t, ?_, hrev⟩
        rw [find?_cons_eq, if_neg (by simp [revokeRow, hx]), ht]
      · rw [if_neg (by simpa using hx')]
        obtain ⟨t2, ht2, hrev2⟩ := ih ⟨t, ht, hrev⟩
        refine ⟨t2, ?_, hrev2⟩
        rw [find?_cons_eq, if_neg (by simpa using hx), ht2]

theorem FoundRevoked_after_revoke (H : String) (now : Nat)
    (db : List RefreshToken) (t : RefreshToken)
    (hfind : db.find? (fun r => r.token_hash = H) = some t) :
    FoundRevoked H (replaceFirst (fun r => r.token_hash = H) (revokeRow now) db) := by
  induction db with
  | nil => simp [List.find?] at hfind
  | cons x xs ih =>
    rw [find?_cons_eq] at hfind
    unfold replaceFirst
    by_cases hx : x.token_hash = H
    · rw [if_pos (by simpa using hx)]
      refine ⟨revokeRow now x, ?_, by simp [revokeRow]⟩
      rw [find?_cons_eq, if_pos (by simp [revokeRow, hx])]
    · rw [if_neg (by simpa using hx)] at hfind
      rw [if_neg (by simpa using hx)]
      obtain ⟨t2, ht2, hrev2⟩ := ih hfind
      refine ⟨t2, ?_, hrev2⟩
      rw [find?_cons_eq, if_neg (by simpa using hx), ht2]

theorem FoundRevoked_append (H : String) (db : List RefreshToken)
    (row : RefreshToken) (hf : FoundRevoked H db) : FoundRevoked H (db ++ [row]) := by
  obtain ⟨t, ht, hrev⟩ := hf
  exact ⟨t, by rw [List.find?_append, ht]; rfl, hrev⟩

theorem get_active_of_FoundRevoked (crypto : Crypto) (raw : String) (now : Nat)
    (db : List RefreshToken) (hf : FoundRevoked (crypto.sha256hex raw) db) :
    get_active_refresh_token crypto raw now db = .error .AUTH_INVALID_REFRESH := by
  obtain ⟨t, ht, hrev⟩ := hf
  cases h : t.revoked_at with
  | none => exact absurd h hrev
  | some r =>
    unfold get_active_refresh_token
    rw [ht]
    simp [h]

theorem FoundRevoked_applyOp (crypto : Crypto) (H : String)
    (db : List RefreshToken) (op : StoreOp) (hf : FoundRevoked H db) :
    FoundRevoked H (applyOp crypto db op) := by
  cases op with
  | opIssue cfg env uid did dn now =>
    exact FoundRevoked_append H db _ hf
  | opRotate cfg env raw did dn now =>
    unfold applyOp rotate_refresh_token
    cases hga : get_active_refresh_token crypto raw now db with
    | error e => simpa [hga] using hf
    | ok t =>
      simp only [hga]
      exact FoundRevoked_append H _ _ (FoundRevoked_replaceFirst H t.token_hash now db hf)
  | opRevoke raw now =>
    unfold applyOp revoke_refresh_token
    cases hfind : db.find? (fun t => t.token_hash = crypto.sha256hex raw) with
    | none => simpa [hfind] using hf
    | some t =>
      cases hrv : t.revoked_at with
      | some r => simpa [hfind, hrv] using hf
      | none =>
        simp only [hfind, hrv]
        exact FoundRevoked_replaceFirst H t.token_hash now db hf

theorem FoundRevoked_applyOps (crypto : Crypto) (H : String)
    (db : List RefreshToken) (ops : List StoreOp) (hf : FoundRevoked H db) :
    FoundRevoked H (applyOps crypto db ops) := by
  induction ops generalizing db with
  | nil => exact hf
  | cons op ops ih => exact ih _ (FoundRevoked_applyOp crypto H db op hf)

theorem get_active_ok_inv (crypto : Crypto) (raw : String) (now : Nat)
    (db : List RefreshToken) (t : RefreshToken)
    (h : get_active_refresh_token crypto raw now db = .ok t) :
    db.find? (fun r => r.token_hash = crypto.sha256hex raw) = some t ∧
    t.token_hash = crypto.sha256hex raw ∧ t.revoked_at = none ∧ now < t.expires_at := by
  unfold get_active_refresh_token at h
  split at h
  · exact absurd h (by simp)
  · next t' hfind =>
    split at h
    · exact absurd h (by simp)
    · next hrv =>
      split at h
      · exact absurd h (by simp)
      · next hexp =>
        obtain rfl : t' = t := by simpa using h
        exact ⟨hfind, by simpa using List.find?_some hfind, hrv, by omega⟩

/-- C1.  Single-use rotation: once rotate_refresh_token succeeds on a raw
secret, then after any further sequence of issue, rotate and revoke
operations on the store, presenting the same raw secret to
get_active_refresh_token or rotate_refresh_token always fails with
AUTH_INVALID_REFRESH: the rotated row keeps its hash, its revoked_at is set
and no operation ever clears a revoked_at. -/
theorem single_use_rotation (cfg : Config) (crypto : Crypto) (env : IssueEnv)
    (raw device_id : String) (device_name : Option String) (now : Nat)
    (db : List RefreshToken) (res : (Nat × TokenPair) × List RefreshToken)
    (hrot : rotate_refresh_token cfg crypto env raw device_id device_name now db = .ok res)
    (ops : List StoreOp) (now2 : Nat) :
    get_active_refresh_token crypto raw now2 (applyOps crypto res.2 ops) =
      .error .AUTH_INVALID_REFRESH ∧
    ∀ cfg2 env2 did2 dn2,
      rotate_refresh_token cfg2 crypto env2 raw did2 dn2 now2 (applyOps crypto res.2 ops) =
        .error .AUTH_INVALID_REFRESH := by
  have hfr : FoundRevoked (crypto.sha256hex raw) res.2 := by
    unfold rotate_refresh_token at hrot
    cases hga : get_active_refresh_token crypto raw now db with
    | error e => rw [hga] at hrot; exact absurd hrot (by simp)
    | ok t =>
      rw [hga] at hrot
      obtain ⟨hfind, hhash, -, -⟩ := get_active_ok_inv crypto raw now db t hga
      simp only [issue_token_pair, _issue_refresh_token] at hrot
      have hres := Except.ok.inj hrot
      have hdb2 : res.2 =
          replaceFirst (fun r => r.token_hash = t.token_hash) (revokeRow now) db ++ [_] :=
        (congrArg Prod.snd hres).symm
      rw [hdb2]
      apply FoundRevoked_append
      rw [hhash]
      exact FoundRevoked_after_revoke (crypto.sha256hex raw) now db t hfind
  have hall : FoundRevoked (crypto.sha256hex raw) (applyOps crypto res.2 ops) :=
    FoundRevoked_applyOps crypto _ res.2 ops hfr
  refine ⟨get_active_of_FoundRevoked crypto raw now2 _ hall, ?_⟩
  intro cfg2 env2 did2 dn2
  unfold rotate_refresh_token
  rw [get_active_of_FoundRevoked crypto raw now2 _ hall]

/-- Witness for C1: a concrete successful rotation followed by a revoke
operation, after which both lookups of the old secret fail invalid. -/
theorem single_use_rotation_witness :
    get_active_refresh_token idCrypto "secret1" 20
      (applyOps idCrypto
        (rotate_refresh_token defCfg idCrypto defEnv "secret1" "dev" none 10
          [⟨1, 7, "secret1", "dev", none, 0, 1000, 0, none⟩]).toOption.get!.2
        [.opRevoke "secret1" 15]) = .error .AUTH_INVALID_REFRESH ∧
    ∀ cfg2 env2 did2 dn2,
      rotate_refresh_token cfg2 idCrypto env2 "secret1" did2 dn2 20
        (applyOps idCrypto
          (rotate_refresh_token defCfg idCrypto defEnv "secret1" "dev" none 10
            [⟨1, 7, "secret1", "dev", none, 0, 1000, 0, none⟩]).toOption.get!.2
          [.opRevoke "secret1" 15]) = .error .AUTH_INVALID_REFRESH := by
  exact single_use_rotation defCfg idCrypto defEnv "secret1" "dev" none 10
    [⟨1, 7, "secret1", "dev", none, 0, 1000, 0, none⟩] _ (by rfl)
    [.opRevoke "secret1" 15] 20

/-- C5.  Expired token error discrimination: a stored row whose expiry is
in the past and whose revoked_at is null always fails the lookup with
AUTH_REFRESH_EXPIRED and never with AUTH_INVALID_REFRESH. -/
theorem expired_refresh_error (crypto : Crypto) (raw : String) (now : Nat)
    (db : List RefreshToken) (t : RefreshToken)
    (hfind : db.find? (fun r => r.token_hash = crypto.sha256hex raw) = some t)
    (hrev : t.revoked_at = none) (hexp : t.expires_at < now) :
    get_active_refresh_token crypto raw now db = .error .AUTH_REFRESH_EXPIRED ∧
    get_active_refresh_token crypto raw now db ≠ .error .AUTH_INVALID_REFRESH := by
  have h : get_active_refresh_token crypto raw now db = .error .AUTH_REFRESH_EXPIRED := by
    unfold get_active_refresh_token
    rw [hfind]
    simp [hrev, show t.expires_at ≤ now from by omega]
  exact ⟨h, by rw [h]; simp⟩

/-- Witness for C5: a concrete expired unrevoked row. -/
theorem expired_refresh_error_witness :
    get_active_refresh_token idCrypto "secret1" 10
      [⟨1, 7, "secret1", "dev", none, 0, 5, 0, none⟩] = .error .AUTH_REFRESH_EXPIRED ∧
    get_active_refresh_token idCrypto "secret1" 10
      [⟨1, 7, "secret1", "dev", none, 0, 5, 0, none⟩] ≠ .error .AUTH_INVALID_REFRESH :=
  expired_refresh_error idCrypto "secret1" 10 _
    ⟨1, 7, "secret1", "dev", none, 0, 5, 0, none⟩ (by rfl) rfl (by decide)

/-- Counterexample to C6 as stated: an expired, unrevoked row is a failing
presentation whose surfaced code is AUTH_REFRESH_EXPIRED, not
AUTH_INVALID_REFRESH, so the three failure causes are not all
indistinguishable. -/
theorem refresh_failure_distinguishable_expired :
    get_active_refresh_token idCrypto "secret1" 10
      [⟨1, 7, "secret1", "dev", none, 0, 5, 0, some 3⟩, ⟨2, 7, "secret2", "dev", none, 0, 5, 0, none⟩]
      ≠ .error .AUTH_REFRESH_EXPIRED ∧
    get_active_refresh_token idCrypto "secret2" 10
      [⟨1, 7, "secret1", "dev", none, 0, 5, 0, some 3⟩, ⟨2, 7, "secret2", "dev", none, 0, 5, 0, none⟩]
      = .error .AUTH_REFRESH_EXPIRED := by
  constructor
  · decide
  · decide

/-- C6 amended: an unknown secret and a revoked row are indistinguishable,
both failing with AUTH_INVALID_REFRESH, but an expired unrevoked row fails
with the distinct code AUTH_REFRESH_EXPIRED. -/
theorem refresh_failure_discrimination (crypto : Crypto) (raw : String) (now : Nat)
    (db : List RefreshToken) :
    (db.find? (fun r => r.token_hash = crypto.sha256hex raw) = none →
      get_active_refresh_token crypto raw now db = .error .AUTH_INVALID_REFRESH) ∧
    (∀ t r, db.find? (fun r => r.token_hash = crypto.sha256hex raw) = some t →
      t.revoked_at = some r →
      get_active_refresh_token crypto raw now db = .error .AUTH_INVALID_REFRESH) ∧
    (∀ t, db.find? (fun r => r.token_hash = crypto.sha256hex raw) = some t →
      t.revoked_at = none → t.expires_at ≤ now →
      get_active_refresh_token crypto raw now db = .error .AUTH_REFRESH_EXPIRED ∧
      AuthCode.AUTH_REFRESH_EXPIRED ≠ AuthCode.AUTH_INVALID_REFRESH) := by
  refine ⟨?_, ?_, ?_⟩
  · intro h
    unfold get_active_refresh_token
    rw [h]
  · intro t r hf hr
    unfold get_active_refresh_token
    rw [hf]
    simp [hr]
  · intro t hf hr hexp
    refine ⟨?_, by simp⟩
    unfold get_active_refresh_token
    rw [hf]
    simp [hr, hexp]

theorem b64UrlChar_lt_ne_eq : ∀ k, k < 64 → b64UrlChar k ≠ '=' := by decide

theorem rstripPad_cons_ne_nil (c : Char) (cs : List Char) (hc : c ≠ '=') :
    rstripPad (c :: cs) ≠ [] := by
  intro h
  unfold rstripPad at h
  have h2 : (c :: cs).reverse.dropWhile (fun x => x = '=') = [] := by
    have := congrArg List.reverse h
    simpa using this
  have h3 := List.dropWhile_eq_nil_iff.mp h2 c (by simp)
  simp at h3
  exact hc h3

theorem token_urlsafe_ne_empty (bytes : List Nat) (hlen : bytes.length = 48)
    (hb : ∀ b ∈ bytes, b < 256) : token_urlsafe bytes ≠ "" := by
  match bytes, hlen with
  | b1 :: b2 :: b3 :: rest, _ =>
    intro h
    have hdata := congrArg String.data h
    simp only [token_urlsafe] at hdata
    exact rstripPad_cons_ne_nil (b64UrlChar (b1 / 4)) _
      (b64UrlChar_lt_ne_eq (b1 / 4) (by have := hb b1 (by simp); omega))
      (by simpa using hdata)

theorem jwtEncode_ne_empty (env : IssueEnv) : jwtEncode env ≠ "" := by
  intro h
  have h2 := congrArg String.length h
  simp only [jwtEncode, String.length_append] at h2
  have h3 : ("." : String).length = 1 := rfl
  have h4 : ("" : String).length = 0 := rfl
  omega

theorem issue_pair_props (cfg : Config) (crypto : Crypto) (env : IssueEnv)
    (uid : Nat) (did : String) (dn : Option String) (now : Nat)
    (db : List RefreshToken) :
    (issue_token_pair cfg crypto env uid did dn now db).1.token_type = "Bearer" ∧
    (issue_token_pair cfg crypto env uid did dn now db).1.expires_in =
      max 1 cfg.jwt_access_ttl_minutes * 60 ∧
    60 ≤ (issue_token_pair cfg crypto env uid did dn now db).1.expires_in ∧
    (issue_token_pair cfg crypto env uid did dn now db).1.access_token ≠ "" ∧
    (env.refreshBytes.length = 48 → (∀ b ∈ env.refreshBytes, b < 256) →
      (issue_token_pair cfg crypto env uid did dn now db).1.refresh_token ≠ "") := by
  refine ⟨rfl, rfl, ?_, ?_, ?_⟩
  · show (60 : Int) ≤ max 1 cfg.jwt_access_ttl_minutes * 60
    have := le_max_left (1 : Int) cfg.jwt_access_ttl_minutes
    omega
  · exact jwtEncode_ne_empty env
  · intro h48 hb
    exact token_urlsafe_ne_empty env.refreshBytes h48 hb

/-- C9.  Token pair contract: a pair built by issue_token_pair, as returned
by both login and rotation, is a structure with exactly the fields
access_token, refresh_token, expires_in and token_type; token_type is
Bearer, expires_in is sixty times the configured access ttl in minutes
clamped below at one, hence at least sixty, the access token is nonempty,
and the refresh secret drawn from 48 random bytes is nonempty. -/
theorem token_pair_contract (cfg : Config) (crypto : Crypto) (env : IssueEnv)
    (uid : Nat) (did : String) (dn : Option String) (now : Nat)
    (db : List RefreshToken)
    (h48 : env.refreshBytes.length = 48) (hb : ∀ b ∈ env.refreshBytes, b < 256) :
    ((issue_token_pair cfg crypto env uid did dn now db).1.token_type = "Bearer" ∧
     (issue_token_pair cfg crypto env uid did dn now db).1.expires_in =
       max 1 cfg.jwt_access_ttl_minutes * 60 ∧
     60 ≤ (issue_token_pair cfg crypto env uid did dn now db).1.expires_in ∧
     (issue_token_pair cfg crypto env uid did dn now db).1.access_token ≠ "" ∧
     (issue_token_pair cfg crypto env uid did dn now db).1.refresh_token ≠ "") ∧
    ∀ raw res, rotate_refresh_token cfg crypto env raw did dn now db = .ok res →
      (res.1.2.token_type = "Bearer" ∧
       res.1.2.expires_in = max 1 cfg.jwt_access_ttl_minutes * 60 ∧
       60 ≤ res.1.2.expires_in ∧
       res.1.2.access_token ≠ "" ∧ res.1.2.refresh_token ≠ "") := by
  obtain ⟨p1, p2, p3, p4, p5⟩ := issue_pair_props cfg crypto env uid did dn now db
  refine ⟨⟨p1, p2, p3, p4, p5 h48 hb⟩, ?_⟩
  intro raw res hrot
  unfold rotate_refresh_token at hrot
  cases hga : get_active_refresh_token crypto raw now db with
  | error e => rw [hga] at hrot; exact absurd hrot (by simp)
  | ok t =>
    rw [hga] at hrot
    have hres := Except.ok.inj hrot
    have hpair : res.1.2 = (issue_token_pair cfg crypto env t.user_id did dn now
        (replaceFirst (fun r => r.token_hash = t.token_hash) (revokeRow now) db)).1 := by
      rw [← hres]
      rfl
    obtain ⟨q1, q2, q3, q4, q5⟩ := issue_pair_props cfg crypto env t.user_id did dn now
      (replaceFirst (fun r => r.token_hash = t.token_hash) (revokeRow now) db)
    rw [hpair]
    exact ⟨q1, q2, q3, q4, q5 h48 hb⟩

/-- Witness for C9 at a concrete configuration and environment. -/
theorem token_pair_contract_witness :
    ((issue_token_pair defCfg idCrypto defEnv 7 "dev" none 0 []).1.token_type = "Bearer" ∧
     (issue_token_pair defCfg idCrypto defEnv 7 "dev" none 0 []).1.expires_in =
       max 1 defCfg.jwt_access_ttl_minutes * 60 ∧
     60 ≤ (issue_token_pair defCfg idCrypto defEnv 7 "dev" none 0 []).1.expires_in ∧
     (issue_token_pair defCfg idCrypto defEnv 7 "dev" none 0 []).1.access_token ≠ "" ∧
     (issue_token_pair defCfg idCrypto defEnv 7 "dev" none 0 []).1.refresh_token ≠ "") ∧
    ∀ raw res, rotate_refresh_token defCfg idCrypto defEnv raw "dev" none 0 [] = .ok res →
      (res.1.2.token_type = "Bearer" ∧
       res.1.2.expires_in = max 1 defCfg.jwt_access_ttl_minutes * 60 ∧
       60 ≤ res.1.2.expires_in ∧
       res.1.2.access_token ≠ "" ∧ res.1.2.refresh_token ≠ "") :=
  token_pair_contract defCfg idCrypto defEnv 7 "dev" none 0 [] (by decide)
    (by intro b hb; simp [defEnv] at hb; omega)

/-- Witness for the amended C6: concrete rows for each of the three cases. -/
theorem refresh_failure_discrimination_witness :
    get_active_refresh_token idCrypto "missing" 10
      [⟨1, 7, "secret1", "dev", none, 0, 5, 0, some 3⟩] = .error .AUTH_INVALID_REFRESH ∧
    get_active_refresh_token idCrypto "secret1" 10
      [⟨1, 7, "secret1", "dev", none, 0, 5, 0, some 3⟩] = .error .AUTH_INVALID_REFRESH ∧
    get_active_refresh_token idCrypto "secret2" 10
      [⟨2, 7, "secret2", "dev", none, 0, 5, 0, none⟩] = .error .AUTH_REFRESH_EXPIRED := by
  refine ⟨(refresh_failure_discrimination idCrypto "missing" 10 _).1 (by decide),
    (refresh_failure_discrimination idCrypto "secret1" 10 _).2.1
      ⟨1, 7, "secret1", "dev", none, 0, 5, 0, some 3⟩ 3 (by decide) rfl,
    ((refresh_failure_discrimination idCrypto "secret2" 10 _).2.2
      ⟨2, 7, "secret2", "dev", none, 0, 5, 0, none⟩ (by decide) rfl (by decide)).1⟩

/-- C10.  Reset confirmation preserves state on password policy failure:
when the submitted code matches but the proposed password fails the
strength policy or equals the current password, the handler rejects and
returns the state unchanged, so the code row keeps used_at null with its
attempts counter intact and the user password hash is untouched, and the
same code remains usable. -/
theorem reset_preserves_state_on_policy_failure (cfg : Config) (crypto : Crypto)
    (contacts : List UserContact) (channel dest code pw : String) (now : Nat)
    (st : ResetState) (u : User) (tok : PasswordResetToken)
    (hchv : channel = "email" ∨ channel = "phone")
    (hdest : dest ≠ "")
    (hfmt : pyIsDigitStr code = true) (hlen : code.length = 6)
    (hres : resolveUser contacts st.users channel dest = some u)
    (htok : newestActiveToken u.id channel dest now st.tokens = some tok)
    (hatt : (tok.attempts : Int) < max 3 cfg.reset_max_attempts)
    (hmatch : checkPasswordHash crypto tok.code_hash code = true) :
    (∀ e, _validate_password_strength pw (some u.username) = some e →
      reset_password cfg crypto contacts false false channel dest code pw pw now st =
        (.weakPassword e, st)) ∧
    (_validate_password_strength pw (some u.username) = none →
      checkPasswordHash crypto u.password_hash pw = true →
      reset_password cfg crypto contacts false false channel dest code pw pw now st =
        (.samePassword, st)) := by
  have hatt2 : ¬ (max 3 cfg.reset_max_attempts ≤ (tok.attempts : Int)) := by omega
  constructor
  · intro e hv
    simp [reset_password, hchv, hdest, hfmt, hlen, hres, htok, hatt2, hmatch, hv]
  · intro hv hsame
    simp [reset_password, hchv, hdest, hfmt, hlen, hres, htok, hatt2, hmatch, hv, hsame]

/-- Witness for C10: a correct code with a too weak proposed password
leaves the concrete state untouched. -/
theorem reset_preserves_state_witness :
    reset_password defCfg idCrypto [⟨1, some "d@example.com", none⟩] false false
      "email" "d@example.com" "111111" "short" "short" 300
      ⟨[⟨1, "diana", "hash0"⟩], [⟨1, 1, "email", "d@example.com", "111111", 0, 100, 1000, none⟩]⟩ =
      (.weakPassword .badLength,
       ⟨[⟨1, "diana", "hash0"⟩], [⟨1, 1, "email", "d@example.com", "111111", 0, 100, 1000, none⟩]⟩) :=
  (reset_preserves_state_on_policy_failure defCfg idCrypto _ "email" "d@example.com"
    "111111" "short" 300 _ ⟨1, "diana", "hash0"⟩
    ⟨1, 1, "email", "d@example.com", "111111", 0, 100, 1000, none⟩
    (Or.inl rfl) (by decide) (by decide) (by decide) (by decide) (by decide)
    (by decide) (by decide)).1 .badLength (by decide)

theorem reset_step_mismatch (cfg : Config) (crypto : Crypto)
    (contacts : List UserContact) (channel dest wrong pw : String) (nw : Nat)
    (us : List User) (u : User) (tok : PasswordResetToken)
    (hchv : channel = "email" ∨ channel = "phone")
    (hdest : dest ≠ "")
    (hfmt : pyIsDigitStr wrong = true) (hlen : wrong.length = 6)
    (hres : resolveUser contacts us channel dest = some u)
    (htu : tok.user_id = u.id) (hch : tok.channel = channel)
    (hdst : tok.destination = dest) (hused : tok.used_at = none)
    (hexp : nw < tok.expires_at)
    (hatt : (tok.attempts : Int) < max 3 cfg.reset_max_attempts)
    (hmis : checkPasswordHash crypto tok.code_hash wrong = false) :
    reset_password cfg crypto contacts false false channel dest wrong pw pw nw ⟨us, [tok]⟩ =
      (.codeMismatch, ⟨us, [{ tok with attempts := tok.attempts + 1 }]⟩) := by
  have hatt2 : ¬ (max 3 cfg.reset_max_attempts ≤ (tok.attempts : Int)) := by omega
  have htok : newestActiveToken u.id channel dest nw [tok] = some tok := by
    simp [newestActiveToken, resetLookupMatch, htu, hch, hdst, hused, hexp]
  simp [reset_password, hchv, hdest, hfmt, hlen, hres, htok, hatt2, hmis, replaceFirst]

theorem reset_step_exceeded (cfg : Config) (crypto : Crypto)
    (contacts : List UserContact) (channel dest code pw : String) (nw : Nat)
    (us : List User) (u : User) (tok : PasswordResetToken)
    (hchv : channel = "email" ∨ channel = "phone")
    (hdest : dest ≠ "")
    (hfmt : pyIsDigitStr code = true) (hlen : code.length = 6)
    (hres : resolveUser contacts us channel dest = some u)
    (htu : tok.user_id = u.id) (hch : tok.channel = channel)
    (hdst : tok.destination = dest) (hused : tok.used_at = none)
    (hexp : nw < tok.expires_at)
    (hatt : max 3 cfg.reset_max_attempts ≤ (tok.attempts : Int)) :
    reset_password cfg crypto contacts false false channel dest code pw pw nw ⟨us, [tok]⟩ =
      (.attemptsExceeded, ⟨us, [tok]⟩) := by
  have htok : newestActiveToken u.id channel dest nw [tok] = some tok := by
    simp [newestActiveToken, resetLookupMatch, htu, hch, hdst, hused, hexp]
  simp [reset_password, hchv, hdest, hfmt, hlen, hres, htok, hatt]

/-- Counterexample to C2 as stated: with max_attempts five and a code row
starting at zero attempts, four consecutive wrong submissions each fail
with CodeMismatch, but the fifth submission with the correct code succeeds
rather than failing with AttemptsExceeded. -/
theorem reset_attempts_claim_counterexample :
    (let go := fun (c : String) (nw : Nat) (s : ResetState) =>
      reset_password defCfg idCrypto [⟨1, some "d@example.com", none⟩] false false
        "email" "d@example.com" c "Str0ng!Pass" "Str0ng!Pass" nw s
     let st0 : ResetState :=
      ⟨[⟨1, "diana", "hash0"⟩], [⟨1, 1, "email", "d@example.com", "111111", 0, 100, 1000, none⟩]⟩
     (go "222222" 200 st0).1 = .codeMismatch ∧
     (go "222222" 210 (go "222222" 200 st0).2).1 = .codeMismatch ∧
     (go "222222" 220 (go "222222" 210 (go "222222" 200 st0).2).2).1 = .codeMismatch ∧
     (go "222222" 230 (go "222222" 220 (go "222222" 210 (go "222222" 200 st0).2).2).2).1 =
       .codeMismatch ∧
     (go "111111" 240
       (go "222222" 230 (go "222222" 220 (go "222222" 210 (go "222222" 200 st0).2).2).2).2).1 =
       .success ∧
     (go "111111" 240
       (go "222222" 230 (go "222222" 220 (go "222222" 210 (go "222222" 200 st0).2).2).2).2).1 ≠
       .attemptsExceeded) := by
  decide

/-- C2 amended: with max_attempts five and a code row starting at zero
attempts, each of the first five wrong submissions fails with CodeMismatch
and advances the attempts counter by one; after five failures the counter
is five, and any sixth submission, even with the correct code, fails with
AttemptsExceeded without further incrementing.  A correct fifth submission
after only four failures still succeeds, as the counterexample shows. -/
theorem reset_attempts_boundary (cfg : Config) (crypto : Crypto)
    (contacts : List UserContact) (channel dest codeV wrongV pw : String)
    (us : List User) (u : User) (tok : PasswordResetToken)
    (hmax : max 3 cfg.reset_max_attempts = 5)
    (hchv : channel = "email" ∨ channel = "phone")
    (hdest : dest ≠ "")
    (hwf : pyIsDigitStr wrongV = true) (hwl : wrongV.length = 6)
    (hcf : pyIsDigitStr codeV = true) (hcl : codeV.length = 6)
    (hres : resolveUser contacts us channel dest = some u)
    (htu : tok.user_id = u.id) (hch : tok.channel = channel)
    (hdst : tok.destination = dest)
    (hhash : tok.code_hash = crypto.scryptHash codeV)
    (hused : tok.used_at = none)
    (hne : crypto.scryptHash wrongV ≠ crypto.scryptHash codeV) :
    (∀ k nw, k < 5 → nw < tok.expires_at →
      reset_password cfg crypto contacts false false channel dest wrongV pw pw nw
        ⟨us, [{ tok with attempts := k }]⟩ =
        (.codeMismatch, ⟨us, [{ tok with attempts := k + 1 }]⟩)) ∧
    (∀ nw, nw < tok.expires_at →
      reset_password cfg crypto contacts false false channel dest codeV pw pw nw
        ⟨us, [{ tok with attempts := 5 }]⟩ =
        (.attemptsExceeded, ⟨us, [{ tok with attempts := 5 }]⟩)) := by
  constructor
  · intro k nw hk hexp
    have h := reset_step_mismatch cfg crypto contacts channel dest wrongV pw nw us u
      { tok with attempts := k } hchv hdest hwf hwl hres (by simpa using htu)
      (by simpa using hch) (by simpa using hdst) (by simpa using hused)
      (by simpa using hexp) (by simp [hmax]; omega)
      (by simp [checkPasswordHash, hhash]; exact fun h2 => hne h2.symm)
    simpa using h
  · intro nw hexp
    exact reset_step_exceeded cfg crypto contacts channel dest codeV pw nw us u
      { tok with attempts := 5 } hchv hdest hcf hcl hres (by simpa using htu)
      (by simpa using hch) (by simpa using hdst) (by simpa using hused)
      (by simpa using hexp) (by simp [hmax])

/-- Witness for the amended C2: the first wrong submission and the sixth
submission at the concrete state. -/
theorem reset_attempts_boundary_witness :
    reset_password defCfg idCrypto [⟨1, some "d@example.com", none⟩] false false
      "email" "d@example.com" "222222" "Str0ng!Pass" "Str0ng!Pass" 200
      ⟨[⟨1, "diana", "hash0"⟩],
       [{ (⟨1, 1, "email", "d@example.com", "111111", 0, 100, 1000, none⟩ : PasswordResetToken)
          with attempts := 0 }]⟩ =
      (.codeMismatch,
       ⟨[⟨1, "diana", "hash0"⟩],
        [{ (⟨1, 1, "email", "d@example.com", "111111", 0, 100, 1000, none⟩ : PasswordResetToken)
           with attempts := 1 }]⟩) ∧
    reset_password defCfg idCrypto [⟨1, some "d@example.com", none⟩] false false
      "email" "d@example.com" "111111" "Str0ng!Pass" "Str0ng!Pass" 240
      ⟨[⟨1, "diana", "hash0"⟩],
       [{ (⟨1, 1, "email", "d@example.com", "111111", 0, 100, 1000, none⟩ : PasswordResetToken)
          with attempts := 5 }]⟩ =
      (.attemptsExceeded,
       ⟨[⟨1, "diana", "hash0"⟩],
        [{ (⟨1, 1, "email", "d@example.com", "111111", 0, 100, 1000, none⟩ : PasswordResetToken)
           with attempts := 5 }]⟩) := by
  have h := reset_attempts_boundary defCfg idCrypto [⟨1, some "d@example.com", none⟩]
    "email" "d@example.com" "111111" "222222" "Str0ng!Pass"
    [⟨1, "diana", "hash0"⟩] ⟨1, "diana", "hash0"⟩
    ⟨1, 1, "email", "d@example.com", "111111", 0, 100, 1000, none⟩
    (by decide) (Or.inl rfl) (by decide) (by decide) (by decide) (by decide) (by decide)
    (by decide) rfl rfl rfl rfl rfl (by decide)
  exact ⟨h.1 0 200 (by decide) (by decide), h.2 240 (by decide)⟩

theorem filter_supersedeAll (uid now : Nat) (toks : List PasswordResetToken) :
    (supersedeAll uid now toks).filter (supersedes uid now) = [] := by
  induction toks with
  | nil => rfl
  | cons t ts ih =>
    simp only [supersedeAll, List.map_cons, List.filter_cons] at ih ⊢
    by_cases h : supersedes uid now t
    · rw [if_pos h]
      have hf : supersedes uid now { t with used_at := some now } = false := by
        simp [supersedes]
      rw [hf]
      simpa using ih
    · rw [if_neg h]
      rw [Bool.not_eq_true] at h
      rw [h]
      simpa using ih

theorem foldl_pick_mem (l : List PasswordResetToken)
    (acc : Option PasswordResetToken) (t : PasswordResetToken)
    (h : l.foldl (fun best x =>
        match best with
        | none => some x
        | some b => if b.created_at < x.created_at then some x else some b) acc = some t) :
    t ∈ l ∨ acc = some t := by
  induction l generalizing acc with
  | nil => exact Or.inr h
  | cons x xs ih =>
    rcases ih _ h with hmem | hacc
    · exact Or.inl (List.mem_cons_of_mem _ hmem)
    · match acc, hacc with
      | none, hacc =>
        obtain rfl : x = t := by simpa using hacc
        exact Or.inl (List.mem_cons_self _ _)
      | some b, hacc =>
        have hacc2 : (if b.created_at < x.created_at then some x else some b) = some t := hacc
        by_cases hlt : b.created_at < x.created_at
        · rw [if_pos hlt] at hacc2
          obtain rfl : x = t := by simpa using hacc2
          exact Or.inl (List.mem_cons_self _ _)
        · rw [if_neg hlt] at hacc2
          exact Or.inr hacc2

theorem newestActiveToken_mem (uid : Nat) (channel dest : String) (now : Nat)
    (toks : List PasswordResetToken) (t : PasswordResetToken)
    (h : newestActiveToken uid channel dest now toks = some t) :
    t ∈ toks ∧ resetLookupMatch uid channel dest now t = true := by
  unfold newestActiveToken at h
  rcases foldl_pick_mem _ none t h with hmem | hacc
  · exact ⟨(List.mem_filter.mp hmem).1, (List.mem_filter.mp hmem).2⟩
  · exact absurd hacc (by simp)

theorem replaceFirst_append_not (p : α → Bool) (f : α → α) (l1 : List α) (x : α)
    (l2 : List α) (h1 : ∀ y ∈ l1, p y = false) (hx : p x = true) :
    replaceFirst p f (l1 ++ x :: l2) = l1 ++ f x :: l2 := by
  induction l1 with
  | nil => simp [replaceFirst, hx]
  | cons a l1 ih =>
    have ha := h1 a (by simp)
    simp only [List.cons_append, replaceFirst, ha]
    rw [if_neg (by simp [ha])]
    exact congrArg (a :: .) (ih (fun y hy => h1 y (by simp [hy])))

theorem sup_after_final_map (uid now tokId : Nat) (y : PasswordResetToken)
    (hy : y.id ≠ tokId ∨ y.used_at ≠ none) :
    supersedes uid now
      (if y.user_id = uid ∧ y.used_at = none ∧ now < y.expires_at ∧ y.id ≠ tokId
       then { y with used_at := some now } else y) = false := by
  by_cases hc : y.user_id = uid ∧ y.used_at = none ∧ now < y.expires_at ∧ y.id ≠ tokId
  · rw [if_pos hc]
    simp [supersedes]
  · rw [if_neg hc]
    rcases hy with hid | hused
    · simp only [supersedes]
      rw [Bool.eq_false_iff]
      intro hs
      simp only [decide_eq_true_eq] at hs
      exact hc ⟨hs.1, hs.2.1, hs.2.2, hid⟩
    · simp only [supersedes]
      rw [Bool.eq_false_iff]
      intro hs
      simp only [decide_eq_true_eq] at hs
      exact hused hs.2.1

set_option maxHeartbeats 1000000 in
/-- C3.  At most one active reset code per user: after an issue through
forgot_password that actually inserted a code for the resolved user, and
after a successful confirmation through reset_password, at most one
password_reset_token row of that user is active, whatever the channel or
destination; issuing supersedes every other active code of the user and a
successful confirmation consumes the matched code and supersedes the rest.
The confirmation part assumes primary key uniqueness of the stored ids. -/
theorem at_most_one_active_reset_code :
    (∀ (cfg : Config) (crypto : Crypto) (contacts : List UserContact) (limC : Bool)
       (channel dest genCode : String) (now : Nat) (st : ResetState) (u : User)
       (st' : ResetState),
       resolveUser contacts st.users channel dest = some u →
       forgot_password cfg crypto contacts false limC channel dest genCode now st =
         (.accepted true, st') →
       (activeResetCodes u.id now st'.tokens).length ≤ 1) ∧
    (∀ (cfg : Config) (crypto : Crypto) (contacts : List UserContact) (limC : Bool)
       (channel dest code pw cpw : String) (now : Nat) (st : ResetState) (u : User)
       (st' : ResetState),
       (st.tokens.map (fun t => t.id)).Nodup →
       resolveUser contacts st.users channel dest = some u →
       reset_password cfg crypto contacts false limC channel dest code pw cpw now st =
         (.success, st') →
       (activeResetCodes u.id now st'.tokens).length ≤ 1) := by
  constructor
  · intro cfg crypto contacts limC channel dest genCode now st u st' hres heq
    unfold forgot_password at heq
    split at heq
    · exact absurd heq (by simp)
    · split at heq
      · exact absurd heq (by simp)
      · split at heq
        · exact absurd heq (by simp)
        · split at heq
          · exact absurd heq (by simp)
          · split at heq
            · exact absurd heq (by simp)
            · next u2 hres2 =>
              rw [hres] at hres2
              have hu : u2 = u := by simpa using hres2.symm
              rw [hu] at heq
              injection heq with h1 h2
              subst h2
              simp only [activeResetCodes, List.filter_append, filter_supersedeAll,
                List.nil_append]
              exact le_trans (List.length_filter_le _ _) (by simp)
  · intro cfg crypto contacts limC channel dest code pw cpw now st u st' hnd hres heq
    unfold reset_password at heq
    rw [if_neg (by simp : ¬ (false = true))] at heq
    split at heq
    · exact absurd heq (by simp)
    · split at heq
      · exact absurd heq (by simp)
      · split at heq
        · exact absurd heq (by simp)
        · split at heq
          · exact absurd heq (by simp)
          · split at heq
            · exact absurd heq (by simp)
            · next u2 hres2 =>
              rw [hres] at hres2
              have hu : u2 = u := by simpa using hres2.symm
              rw [hu] at heq
              split at heq
              · exact absurd heq (by simp)
              · split at heq
                · exact absurd heq (by simp)
                · next tok htok =>
                  split at heq
                  · exact absurd heq (by simp)
                  · split at heq
                    · exact absurd heq (by simp)
                    · split at heq
                      · exact absurd heq (by simp)
                      · split at heq
                        · exact absurd heq (by simp)
                        · obtain ⟨htokmem, -⟩ :=
                            newestActiveToken_mem u.id channel dest now st.tokens tok htok
                          obtain ⟨l1, l2, hsplit⟩ := List.append_of_mem htokmem
                          injection heq with h1 h2
                          subst h2
                          have hnotin : tok.id ∉ l1.map (fun t => t.id) ∧
                              tok.id ∉ l2.map (fun t => t.id) := by
                            rw [hsplit] at hnd
                            simp only [List.map_append, List.map_cons] at hnd
                            have h2 := List.nodup_middle.mp hnd
                            rw [List.nodup_cons] at h2
                            simp only [List.mem_append] at h2
                            exact ⟨fun hh => h2.1 (Or.inl hh), fun hh => h2.1 (Or.inr hh)⟩
                          have hrepl : replaceFirst (fun t => t.id = tok.id)
                              (fun t => { t with used_at := some now }) st.tokens =
                              l1 ++ { tok with used_at := some now } :: l2 := by
                            rw [hsplit]
                            apply replaceFirst_append_not
                            · intro y hy
                              simp only [decide_eq_false_iff_not]
                              intro hid
                              exact hnotin.1 (by simpa [← hid] using List.mem_map_of_mem _ hy)
                            · simp
                          simp only [activeResetCodes, hrepl, List.map_append, List.map_cons,
                            List.filter_append, List.filter_cons]
                          have hz : ∀ y : PasswordResetToken, y.id ≠ tok.id ∨ y.used_at ≠ none →
                              supersedes u.id now
                                (if y.user_id = u.id ∧ y.used_at = none ∧ now < y.expires_at ∧
                                    y.id ≠ tok.id
                                 then { y with used_at := some now } else y) = false :=
                            fun y hy => sup_after_final_map u.id now tok.id y hy
                          have hfil1 : ∀ (l : List PasswordResetToken),
                              (∀ y ∈ l, y.id ≠ tok.id) →
                              (l.map (fun t =>
                                if t.user_id = u.id ∧ t.used_at = none ∧ now < t.expires_at ∧
                                    t.id ≠ tok.id
                                then { t with used_at := some now } else t)).filter
                                (supersedes u.id now) = [] := by
                            intro l hl
                            rw [List.filter_eq_nil_iff]
                            intro a ha
                            obtain ⟨y, hy, rfl⟩ := List.mem_map.mp ha
                            rw [hz y (Or.inl (hl y hy))]
                            simp
                          have hl1 : ∀ y ∈ l1, y.id ≠ tok.id := by
                            intro y hy hid
                            exact hnotin.1 (by simpa [← hid] using List.mem_map_of_mem _ hy)
                          have hl2 : ∀ y ∈ l2, y.id ≠ tok.id := by
                            intro y hy hid
                            exact hnotin.2 (by simpa [← hid] using List.mem_map_of_mem _ hy)
                          rw [hfil1 l1 hl1, hfil1 l2 hl2]
                          rw [hz { tok with used_at := some now } (Or.inr (by simp))]
                          simp

/-- Witness for C3: both parts applied at a concrete state with one prior
active code of the user. -/
theorem at_most_one_active_reset_code_witness :
    (activeResetCodes 1 200
      (forgot_password defCfg idCrypto [⟨1, some "d@example.com", none⟩] false false
        "email" "d@example.com" "222222" 200
        ⟨[⟨1, "diana", "hash0"⟩],
         [⟨1, 1, "email", "d@example.com", "111111", 0, 100, 1000, none⟩]⟩).2.tokens).length ≤ 1 ∧
    (activeResetCodes 1 300
      (reset_password defCfg idCrypto [⟨1, some "d@example.com", none⟩] false false
        "email" "d@example.com" "111111" "Str0ng!Pass" "Str0ng!Pass" 300
        ⟨[⟨1, "diana", "hash0"⟩],
         [⟨1, 1, "email", "d@example.com", "111111", 0, 100, 1000, none⟩]⟩).2.tokens).length ≤ 1 := by
  constructor
  · exact at_most_one_active_reset_code.1 defCfg idCrypto [⟨1, some "d@example.com", none⟩]
      false "email" "d@example.com" "222222" 200
      ⟨[⟨1, "diana", "hash0"⟩], [⟨1, 1, "email", "d@example.com", "111111", 0, 100, 1000, none⟩]⟩
      ⟨1, "diana", "hash0"⟩ _ (by decide) (by decide)
  · exact at_most_one_active_reset_code.2 defCfg idCrypto [⟨1, some "d@example.com", none⟩]
      false "email" "d@example.com" "111111" "Str0ng!Pass" "Str0ng!Pass" 300
      ⟨[⟨1, "diana", "hash0"⟩], [⟨1, 1, "email", "d@example.com", "111111", 0, 100, 1000, none⟩]⟩
      ⟨1, "diana", "hash0"⟩ _ (by decide) (by decide) (by decide)

theorem supersedeAll_inactive (uid n2 n3 : Nat) (h23 : n2 ≤ n3)
    (toks : List PasswordResetToken) (t : PasswordResetToken)
    (ht : t ∈ supersedeAll uid n2 toks) : supersedes uid n3 t = false := by
  simp only [supersedeAll, List.mem_map] at ht
  obtain ⟨b, hb, rfl⟩ := ht
  by_cases h2 : supersedes uid n2 b
  · rw [if_pos h2]
    simp [supersedes]
  · rw [if_neg h2]
    rw [Bool.eq_false_iff]
    intro h3
    apply h2
    simp only [supersedes, decide_eq_true_eq] at h3 ⊢
    exact ⟨h3.1, h3.2.1, by omega⟩

theorem lookup_implies_sup (uid : Nat) (channel dest : String) (now : Nat)
    (t : PasswordResetToken) (h : resetLookupMatch uid channel dest now t = true) :
    supersedes uid now t = true := by
  simp only [resetLookupMatch, decide_eq_true_eq] at h
  simp only [supersedes, decide_eq_true_eq]
  exact ⟨h.1, h.2.2.2.1, h.2.2.2.2⟩

/-- Counterexample to C4 as stated: after a second code is issued for the
same user, channel and destination, confirming with the first code value
fails with CodeMismatch, the very outcome the claim excludes, and not with
CodeNotFound: the lookup finds the newer active code and the old value
mismatches its hash. -/
theorem superseded_replay_claim_counterexample :
    (reset_password defCfg idCrypto [⟨1, some "d@example.com", none⟩] false false
      "email" "d@example.com" "111111" "Str0ng!Pass" "Str0ng!Pass" 300
      (forgot_password defCfg idCrypto [⟨1, some "d@example.com", none⟩] false false
        "email" "d@example.com" "222222" 200
        (forgot_password defCfg idCrypto [⟨1, some "d@example.com", none⟩] false false
          "email" "d@example.com" "111111" 100
          ⟨[⟨1, "diana", "hash0"⟩], []⟩).2).2).1 = .codeMismatch ∧
    (reset_password defCfg idCrypto [⟨1, some "d@example.com", none⟩] false false
      "email" "d@example.com" "111111" "Str0ng!Pass" "Str0ng!Pass" 300
      (forgot_password defCfg idCrypto [⟨1, some "d@example.com", none⟩] false false
        "email" "d@example.com" "222222" 200
        (forgot_password defCfg idCrypto [⟨1, some "d@example.com", none⟩] false false
          "email" "d@example.com" "111111" 100
          ⟨[⟨1, "diana", "hash0"⟩], []⟩).2).2).1 ≠ .codeNotFound := by
  decide

/-- C4 amended: issuing a second reset code supersedes the first, and a
later confirmation submitting the first code value fails with CodeMismatch
against the still active newer code, counting an attempt; it does not fail
with CodeNotFound, which only occurs when no active code remains. -/
theorem superseded_code_replay (cfg : Config) (crypto : Crypto)
    (contacts : List UserContact) (channel dest code1 code2 pw : String)
    (n1 n2 n3 : Nat) (st0 : ResetState) (u : User)
    (hres : resolveUser contacts st0.users channel dest = some u)
    (hchv : channel = "email" ∨ channel = "phone") (hdest : dest ≠ "")
    (h1fmt : pyIsDigitStr code1 = true) (h1len : code1.length = 6)
    (hne : crypto.scryptHash code2 ≠ crypto.scryptHash code1)
    (h23 : n2 ≤ n3)
    (h3exp : n3 < n2 + 60 * (max 5 cfg.reset_code_ttl_minutes).toNat) :
    (reset_password cfg crypto contacts false false channel dest code1 pw pw n3
      (forgot_password cfg crypto contacts false false channel dest code2 n2
        (forgot_password cfg crypto contacts false false channel dest code1 n1 st0).2).2).1 =
      .codeMismatch := by
  have hst1 : (forgot_password cfg crypto contacts false false channel dest code1 n1 st0).2 =
      { st0 with tokens := supersedeAll u.id n1 st0.tokens ++
        [{ id := nextResetId st0.tokens, user_id := u.id, channel := channel,
           destination := dest, code_hash := crypto.scryptHash code1, attempts := 0,
           created_at := n1, expires_at := n1 + 60 * (max 5 cfg.reset_code_ttl_minutes).toNat,
           used_at := none }] } := by
    simp [forgot_password, hchv, hdest, hres]
  rw [hst1]
  set toks1 : List PasswordResetToken := supersedeAll u.id n1 st0.tokens ++
    [{ id := nextResetId st0.tokens, user_id := u.id, channel := channel,
       destination := dest, code_hash := crypto.scryptHash code1, attempts := 0,
       created_at := n1, expires_at := n1 + 60 * (max 5 cfg.reset_code_ttl_minutes).toNat,
       used_at := none }] with htoks1
  have hst2 : (forgot_password cfg crypto contacts false false channel dest code2 n2
      { st0 with tokens := toks1 }).2 =
      { st0 with tokens := supersedeAll u.id n2 toks1 ++
        [{ id := nextResetId toks1, user_id := u.id, channel := channel,
           destination := dest, code_hash := crypto.scryptHash code2, attempts := 0,
           created_at := n2, expires_at := n2 + 60 * (max 5 cfg.reset_code_ttl_minutes).toNat,
           used_at := none }] } := by
    simp [forgot_password, hchv, hdest, hres]
  rw [hst2]
  set row2 : PasswordResetToken :=
    { id := nextResetId toks1, user_id := u.id, channel := channel,
      destination := dest, code_hash := crypto.scryptHash code2, attempts := 0,
      created_at := n2, expires_at := n2 + 60 * (max 5 cfg.reset_code_ttl_minutes).toNat,
      used_at := none } with hrow2
  have htok : newestActiveToken u.id channel dest n3
      (supersedeAll u.id n2 toks1 ++ [row2]) = some row2 := by
    unfold newestActiveToken
    have hfil : (supersedeAll u.id n2 toks1).filter
        (resetLookupMatch u.id channel dest n3) = [] := by
      rw [List.filter_eq_nil_iff]
      intro a ha hmatch
      have hsup := lookup_implies_sup u.id channel dest n3 a hmatch
      rw [supersedeAll_inactive u.id n2 n3 h23 toks1 a ha] at hsup
      exact absurd hsup (by simp)
    have hrowm : resetLookupMatch u.id channel dest n3 row2 = true := by
      simp [resetLookupMatch, hrow2, h3exp]
    rw [List.filter_append, hfil, List.nil_append]
    simp only [List.filter_cons, hrowm, List.filter_nil]
    rfl
  have hatt2 : ¬ (max 3 cfg.reset_max_attempts ≤ (row2.attempts : Int)) := by
    have h3 := le_max_left (3 : Int) cfg.reset_max_attempts
    simp only [hrow2]
    omega
  have hmis : checkPasswordHash crypto row2.code_hash code1 = false := by
    simp only [checkPasswordHash, hrow2, decide_eq_false_iff_not]
    exact hne
  simp [reset_password, hchv, hdest, h1fmt, h1len, hres, htok, hatt2, hmis]

/-- Witness for the amended C4 at concrete inputs. -/
theorem superseded_code_replay_witness :
    (reset_password defCfg idCrypto [⟨1, some "d@example.com", none⟩] false false
      "email" "d@example.com" "343434" "Str0ng!Pass" "Str0ng!Pass" 900
      (forgot_password defCfg idCrypto [⟨1, some "d@example.com", none⟩] false false
        "email" "d@example.com" "565656" 800
        (forgot_password defCfg idCrypto [⟨1, some "d@example.com", none⟩] false false
          "email" "d@example.com" "343434" 700
          ⟨[⟨1, "diana", "hash0"⟩], []⟩).2).2).1 = .codeMismatch :=
  superseded_code_replay defCfg idCrypto [⟨1, some "d@example.com", none⟩]
    "email" "d@example.com" "343434" "565656" "Str0ng!Pass" 700 800 900
    ⟨[⟨1, "diana", "hash0"⟩], []⟩ ⟨1, "diana", "hash0"⟩
    (by decide) (Or.inl rfl) (by decide) (by decide) (by decide) (by decide)
    (by decide) (by decide)

theorem digitChar48_isDigit : ∀ d, d < 10 → (digitChar48 d).isDigit = true := by decide

theorem digitChar48_toNat : ∀ d, d < 10 → (digitChar48 d).toNat = 48 + d := by decide

theorem natRepr_ne_nil (n : Nat) : natRepr n ≠ [] := by
  unfold natRepr
  by_cases h : n < 10
  · simp [h]
  · simp [h]

theorem natRepr_all_digits (n : Nat) : ∀ c ∈ natRepr n, c.isDigit = true := by
  induction n using Nat.strong_induction_on with
  | _ n ih =>
    unfold natRepr
    by_cases h : n < 10
    · simp only [h, dif_pos]
      intro c hc
      simp only [List.mem_singleton] at hc
      subst hc
      exact digitChar48_isDigit n h
    · simp only [h, dif_neg, not_false_iff]
      intro c hc
      rw [List.mem_append] at hc
      rcases hc with hc | hc
      · exact ih (n / 10) (Nat.div_lt_self (by omega) (by omega)) c hc
      · simp only [List.mem_singleton] at hc
        subst hc
        exact digitChar48_isDigit _ (Nat.mod_lt _ (by omega))

theorem digitsVal_append_one (cs : List Char) (c : Char) :
    digitsVal (cs ++ [c]) = 10 * digitsVal cs + (c.toNat - 48) := by
  simp [digitsVal, List.foldl_append]

theorem digitsVal_natRepr (n : Nat) : digitsVal (natRepr n) = n := by
  induction n using Nat.strong_induction_on with
  | _ n ih =>
    unfold natRepr
    by_cases h : n < 10
    · simp [h, digitsVal, digitChar48_toNat n h]
    · simp only [h, dif_neg, not_false_iff]
      rw [digitsVal_append_one, ih (n / 10) (Nat.div_lt_self (by omega) (by omega)),
        digitChar48_toNat _ (Nat.mod_lt _ (by omega))]
      omega

theorem natRepr_length_le (w n : Nat) (hw : 1 ≤ w) (hn : n < 10 ^ w) :
    (natRepr n).length ≤ w := by
  induction w generalizing n with
  | zero => omega
  | succ w ih =>
    unfold natRepr
    by_cases h : n < 10
    · rw [dif_pos h]
      simp only [List.length_singleton]
      omega
    · simp only [h, dif_neg, not_false_iff, List.length_append, List.length_singleton]
      have hw1 : 1 ≤ w := by
        by_contra hc
        have : w = 0 := by omega
        subst this
        simp at hn
        omega
      have := ih (n / 10) hw1 (by
        have : n < 10 * 10 ^ w := by
          calc n < 10 ^ (w + 1) := hn
          _ = 10 * 10 ^ w := by ring
        omega)
      omega

theorem natRepr_headI_ne_zero (n : Nat) (hn : 1 ≤ n) : (natRepr n).headI ≠ '0' := by
  induction n using Nat.strong_induction_on with
  | _ n ih =>
    unfold natRepr
    by_cases h : n < 10
    · simp only [h, dif_pos, List.headI]
      have : n < 10 ∧ 1 ≤ n := ⟨h, hn⟩
      interval_cases n <;> decide
    · simp only [h, dif_neg, not_false_iff]
      cases hnr : natRepr (n / 10) with
      | nil => exact absurd hnr (natRepr_ne_nil _)
      | cons c cs =>
        simp only [List.cons_append, List.headI]
        have hne := ih (n / 10) (Nat.div_lt_self (by omega) (by omega)) (by omega)
        rw [hnr] at hne
        simpa [List.headI] using hne

theorem padNat_length (w n : Nat) (hw : 1 ≤ w) (hn : n < 10 ^ w) :
    (padNat w n).length = w := by
  have := natRepr_length_le w n hw hn
  simp [padNat]
  omega

theorem padNat_all_digits (w n : Nat) : ∀ c ∈ padNat w n, c.isDigit = true := by
  intro c hc
  rw [padNat, List.mem_append] at hc
  rcases hc with hc | hc
  · rw [List.eq_of_mem_replicate hc]
    decide
  · exact natRepr_all_digits n c hc

theorem digitsVal_replicate_zero_append (k : Nat) (cs : List Char) :
    digitsVal (List.replicate k '0' ++ cs) = digitsVal cs := by
  induction k with
  | zero => rfl
  | succ k ih =>
    have : List.replicate (k + 1) '0' ++ cs = '0' :: (List.replicate k '0' ++ cs) := by
      simp [List.replicate_succ]
    rw [this]
    have h0 : digitsVal ('0' :: (List.replicate k '0' ++ cs)) =
        digitsVal (List.replicate k '0' ++ cs) := by
      simp [digitsVal]
    rw [h0, ih]

theorem digitsVal_padNat (w n : Nat) : digitsVal (padNat w n) = n := by
  rw [padNat, digitsVal_replicate_zero_append, digitsVal_natRepr]

theorem parseNDigits_padNat (w n : Nat) (rest : List Char) (hw : 1 ≤ w)
    (hn : n < 10 ^ w) :
    parseNDigits w (padNat w n ++ rest) = .ok (n, rest) := by
  have hlen := padNat_length w n hw hn
  unfold parseNDigits
  have htake := List.take_left (padNat w n) rest
  have hdrop := List.drop_left (padNat w n) rest
  rw [hlen] at htake hdrop
  rw [htake, hdrop]
  rw [if_pos ⟨hlen, by
    rw [List.all_eq_true]
    intro c hc
    exact padNat_all_digits w n c hc⟩]
  rw [digitsVal_padNat]

theorem takeWhile_append_not (p : Char → Bool) (l2 : List Char)
    (h2 : ∀ c, l2.head? = some c → p c = false) :
    ∀ l1 : List Char, (∀ c ∈ l1, p c = true) →
    (l1 ++ l2).takeWhile p = l1 ∧ (l1 ++ l2).dropWhile p = l2 := by
  intro l1
  induction l1 with
  | nil =>
    intro _
    simp only [List.nil_append]
    cases l2 with
    | nil => simp
    | cons c cs =>
      have := h2 c rfl
      simp [List.takeWhile_cons, List.dropWhile_cons, this]
  | cons a l1 ih =>
    intro h1
    have ha := h1 a (by simp)
    obtain ⟨iht, ihd⟩ := ih (fun c hc => h1 c (by simp [hc]))
    simp [List.takeWhile_cons, List.dropWhile_cons, ha, iht, ihd]

theorem pow_ten_4 : (10 : Nat) ^ 4 = 10000 := by norm_num

theorem pow_ten_2 : (10 : Nat) ^ 2 = 100 := by norm_num

theorem pow_ten_6 : (10 : Nat) ^ 6 = 1000000 := by norm_num

theorem daysInMonth_le (y m : Nat) : daysInMonth y m ≤ 31 := by
  unfold daysInMonth
  split_ifs <;> omega

/-- Round trip of the datetime codec: parsing the isoformat rendering of a
constructible datetime returns it exactly. -/
theorem iso_roundtrip (dt : PyDateTime) (hv : dt.Valid) :
    pyFromIsoformat (isoformat dt) = .ok dt := by
  obtain ⟨h1, h2, h3, h4, h5, h6, h7, h8, h9, h10⟩ := hv
  have htime : parseTimePart (padNat 2 dt.hour ++ ':' :: (padNat 2 dt.minute ++
      ':' :: (padNat 2 dt.second ++
      (if dt.microsecond = 0 then [] else '.' :: padNat 6 dt.microsecond)))) =
      .ok (dt.hour, dt.minute, dt.second, dt.microsecond) := by
    unfold parseTimePart
    rw [parseNDigits_padNat 2 dt.hour _ (by omega) (by rw [pow_ten_2]; omega)]
    simp only []
    rw [parseNDigits_padNat 2 dt.minute _ (by omega) (by rw [pow_ten_2]; omega)]
    simp only []
    rw [parseNDigits_padNat 2 dt.second _ (by omega) (by rw [pow_ten_2]; omega)]
    simp only []
    by_cases hms : dt.microsecond = 0
    · rw [if_pos hms, hms]
    · rw [if_neg hms]
      have hfraclen : (padNat 6 dt.microsecond).length = 6 :=
        padNat_length 6 _ (by omega) (by rw [pow_ten_6]; omega)
      obtain ⟨ht, hd⟩ := takeWhile_append_not Char.isDigit []
        (by intro c hc; simp at hc) (padNat 6 dt.microsecond)
        (padNat_all_digits 6 dt.microsecond)
      rw [List.append_nil] at ht hd
      simp only []
      rw [ht, hd]
      rw [if_pos ⟨by omega, by omega, by simp⟩]
      rw [digitsVal_padNat, hfraclen]
      norm_num
  unfold isoformat pyFromIsoformat
  simp only [List.append_assoc, List.cons_append]
  rw [parseNDigits_padNat 4 dt.year _ (by omega) (by rw [pow_ten_4]; omega)]
  simp only [expectChar, if_true]
  rw [parseNDigits_padNat 2 dt.month _ (by omega) (by rw [pow_ten_2]; omega)]
  simp only [expectChar, if_true]
  rw [parseNDigits_padNat 2 dt.day _ (by omega)
    (by have := daysInMonth_le dt.year dt.month; rw [pow_ten_2]; omega)]
  simp only []
  rw [htime]
  simp only []
  rw [if_pos ⟨h1, h3, h4, h5, h6, by omega, by omega, by omega⟩]

theorem b64_alphabet_facts : ∀ d, d < 64 →
    stdB64Val? (urlTranslate (b64UrlChar d)) = some d ∧ urlTranslate (b64UrlChar d) ≠ '=' := by
  decide

theorem urlTranslate_eq : urlTranslate '=' = '=' := rfl

theorem rstripPad_cons4 (c1 c2 c3 c4 : Char) (h4 : c4 ≠ '=') (tail : List Char) :
    rstripPad (c1 :: c2 :: c3 :: c4 :: tail) = c1 :: c2 :: c3 :: c4 :: rstripPad tail := by
  unfold rstripPad
  have hrev : (c1 :: c2 :: c3 :: c4 :: tail).reverse = tail.reverse ++ [c4, c3, c2, c1] := by
    simp
  rw [hrev, List.dropWhile_append]
  by_cases he : (tail.reverse.dropWhile (fun c => c = '=')).isEmpty
  · rw [if_pos he]
    have hstop : List.dropWhile (fun c => c = '=') [c4, c3, c2, c1] = [c4, c3, c2, c1] := by
      simp [List.dropWhile_cons, h4]
    rw [hstop]
    have he2 : tail.reverse.dropWhile (fun c => c = '=') = [] := by
      simpa [List.isEmpty_iff] using he
    simp [he2]
  · rw [if_neg he]
    simp

theorem pad_base64_cons4 (c1 c2 c3 c4 : Char) (tail : List Char) :
    _pad_base64 (c1 :: c2 :: c3 :: c4 :: tail) = c1 :: c2 :: c3 :: c4 :: _pad_base64 tail := by
  unfold _pad_base64
  have hlen : (4 - (c1 :: c2 :: c3 :: c4 :: tail).length % 4) % 4 =
      (4 - tail.length % 4) % 4 := by
    simp only [List.length_cons]
    omega
  rw [hlen]
  simp

theorem b64_roundtrip_aux : ∀ (N : Nat) (bs : List Nat), bs.length ≤ N →
    (∀ b ∈ bs, b < 256) →
    urlsafeB64Decode (_pad_base64 (rstripPad (b64EncodeChunks bs))) = .ok bs := by
  intro N
  induction N with
  | zero =>
    intro bs hlen _
    have hnil : bs = [] := List.eq_nil_of_length_eq_zero (by omega)
    subst hnil
    rfl
  | succ N ih =>
    intro bs hlen hb
    match bs with
    | [] => rfl
    | [b1] =>
      have hb1 : b1 < 256 := hb b1 (by simp)
      obtain ⟨hv1, hn1⟩ := b64_alphabet_facts (b1 / 4) (by omega)
      obtain ⟨hv2, hn2⟩ := b64_alphabet_facts (b1 % 4 * 16) (by omega)
      have hs2 := b64UrlChar_lt_ne_eq (b1 % 4 * 16) (by omega)
      simp only [b64EncodeChunks]
      have hstrip : rstripPad [b64UrlChar (b1 / 4), b64UrlChar (b1 % 4 * 16), '=', '='] =
          [b64UrlChar (b1 / 4), b64UrlChar (b1 % 4 * 16)] := by
        simp [rstripPad, List.dropWhile_cons, hs2]
      rw [hstrip]
      have hpad : _pad_base64 [b64UrlChar (b1 / 4), b64UrlChar (b1 % 4 * 16)] =
          [b64UrlChar (b1 / 4), b64UrlChar (b1 % 4 * 16), '=', '='] := by
        simp [_pad_base64, List.replicate]
      rw [hpad]
      simp only [urlsafeB64Decode, List.map_cons, List.map_nil, urlTranslate_eq]
      simp only [a2bLoop, hn1, hn2, hv1, hv2, if_neg]
      simp [a2bLoop]
      omega
    | [b1, b2] =>
      have hb1 : b1 < 256 := hb b1 (by simp)
      have hb2 : b2 < 256 := hb b2 (by simp)
      obtain ⟨hv1, hn1⟩ := b64_alphabet_facts (b1 / 4) (by omega)
      obtain ⟨hv2, hn2⟩ := b64_alphabet_facts (b1 % 4 * 16 + b2 / 16) (by omega)
      obtain ⟨hv3, hn3⟩ := b64_alphabet_facts (b2 % 16 * 4) (by omega)
      have hs3 := b64UrlChar_lt_ne_eq (b2 % 16 * 4) (by omega)
      simp only [b64EncodeChunks]
      have hstrip : rstripPad [b64UrlChar (b1 / 4), b64UrlChar (b1 % 4 * 16 + b2 / 16),
          b64UrlChar (b2 % 16 * 4), '='] =
          [b64UrlChar (b1 / 4), b64UrlChar (b1 % 4 * 16 + b2 / 16), b64UrlChar (b2 % 16 * 4)] := by
        simp [rstripPad, List.dropWhile_cons, hs3]
      rw [hstrip]
      have hpad : _pad_base64 [b64UrlChar (b1 / 4), b64UrlChar (b1 % 4 * 16 + b2 / 16),
          b64UrlChar (b2 % 16 * 4)] =
          [b64UrlChar (b1 / 4), b64UrlChar (b1 % 4 * 16 + b2 / 16),
           b64UrlChar (b2 % 16 * 4), '='] := by
        simp [_pad_base64, List.replicate]
      rw [hpad]
      simp only [urlsafeB64Decode, List.map_cons, List.map_nil, urlTranslate_eq]
      simp only [a2bLoop, hn1, hn2, hn3, hv1, hv2, hv3, if_neg]
      simp [a2bLoop]
      constructor
      · omega
      · omega
    | b1 :: b2 :: b3 :: rest =>
      have hb1 : b1 < 256 := hb b1 (by simp)
      have hb2 : b2 < 256 := hb b2 (by simp)
      have hb3 : b3 < 256 := hb b3 (by simp)
      obtain ⟨hv1, hn1⟩ := b64_alphabet_facts (b1 / 4) (by omega)
      obtain ⟨hv2, hn2⟩ := b64_alphabet_facts (b1 % 4 * 16 + b2 / 16) (by omega)
      obtain ⟨hv3, hn3⟩ := b64_alphabet_facts (b2 % 16 * 4 + b3 / 64) (by omega)
      obtain ⟨hv4, hn4⟩ := b64_alphabet_facts (b3 % 64) (by omega)
      have hs4 := b64UrlChar_lt_ne_eq (b3 % 64) (by omega)
      have ihr := ih rest (by simp at hlen; omega) (fun b hbm => hb b (by simp [hbm]))
      simp only [urlsafeB64Decode] at ihr
      simp only [b64EncodeChunks]
      rw [rstripPad_cons4 _ _ _ _ hs4, pad_base64_cons4]
      simp only [urlsafeB64Decode, List.map_cons]
      simp only [a2bLoop, hn1, hn2, hn3, hn4, hv1, hv2, hv3, hv4, if_neg]
      simp only [List.nil_append, List.cons_append]
      rw [ihr]
      have e1 : b1 / 4 * 4 + (b1 % 4 * 16 + b2 / 16) / 16 = b1 := by omega
      have e2 : (b1 % 4 * 16 + b2 / 16) % 16 * 16 + (b2 % 16 * 4 + b3 / 64) / 4 = b2 := by
        omega
      have e3 : (b2 % 16 * 4 + b3 / 64) % 4 * 64 + b3 % 64 = b3 := by omega
      simp [e1, e2, e3]

theorem b64_roundtrip (bs : List Nat) (hb : ∀ b ∈ bs, b < 256) :
    urlsafeB64Decode (_pad_base64 (rstripPad (b64EncodeChunks bs))) = .ok bs :=
  b64_roundtrip_aux bs.length bs le_rfl hb

theorem utf8Encode_ascii_bytes (s : List Char) (h : ∀ c ∈ s, c.toNat < 128) :
    ∀ b ∈ utf8Encode s, b < 128 := by
  induction s with
  | nil => simp [utf8Encode]
  | cons c cs ih =>
    intro b hbm
    have hc := h c (by simp)
    simp only [utf8Encode, utf8EncodeChar, if_pos hc, List.cons_append, List.nil_append,
      List.mem_cons] at hbm
    rcases hbm with rfl | hbm
    · exact hc
    · exact ih (fun x hx => h x (by simp [hx])) b hbm

theorem utf8_ascii_loop (s : List Char) (h : ∀ c ∈ s, c.toNat < 128) :
    ∀ fuel, (utf8Encode s).length ≤ fuel →
    utf8DecodeLoop fuel (utf8Encode s) = .ok s := by
  induction s with
  | nil =>
    intro fuel _
    cases fuel <;> rfl
  | cons c cs ih =>
    intro fuel hfuel
    have hc := h c (by simp)
    have henc : utf8EncodeChar c = [c.toNat] := by
      simp [utf8EncodeChar, hc]
    have henc2 : utf8Encode (c :: cs) = c.toNat :: utf8Encode cs := by
      show utf8EncodeChar c ++ utf8Encode cs = _
      rw [henc]
      rfl
    rw [henc2] at hfuel ⊢
    match fuel, hfuel with
    | fuel + 1, hfuel =>
      have hstep : utf8Step c.toNat (utf8Encode cs) = .ok (c.toNat, utf8Encode cs) := by
        simp [utf8Step, hc]
      have ihr := ih (fun x hx => h x (by simp [hx])) fuel (by
        rw [List.length_cons] at hfuel
        omega)
      simp only [utf8DecodeLoop, hstep, ihr]
      rw [Char.ofNat_toNat]

theorem utf8_ascii_roundtrip (s : List Char) (h : ∀ c ∈ s, c.toNat < 128) :
    utf8Decode (utf8Encode s) = .ok s :=
  utf8_ascii_loop s h _ le_rfl

theorem digit_toNat (c : Char) (h : c.isDigit = true) :
    48 ≤ c.toNat ∧ c.toNat ≤ 57 := by
  simp only [Char.isDigit, Bool.and_eq_true, decide_eq_true_eq] at h
  exact ⟨h.1, h.2⟩

theorem isoformat_chars (dt : PyDateTime) :
    ∀ c ∈ isoformat dt, c.isDigit = true ∨ c = '-' ∨ c = ':' ∨ c = 'T' ∨ c = '.' := by
  unfold isoformat
  by_cases hms : dt.microsecond = 0
  · rw [if_pos hms]
    simp only [List.append_nil, List.forall_mem_append, List.forall_mem_cons]
    repeat' apply And.intro
    all_goals first
      | (intro c hc; exact Or.inl (padNat_all_digits _ _ c hc))
      | decide
      | simp
  · rw [if_neg hms]
    simp only [List.forall_mem_append, List.forall_mem_cons]
    repeat' apply And.intro
    all_goals first
      | (intro c hc; exact Or.inl (padNat_all_digits _ _ c hc))
      | decide
      | simp

/-- Characters of an isoformat rendering are plain inside a JSON string:
printable ASCII, neither quote nor backslash. -/
theorem isoformat_plain (dt : PyDateTime) :
    ∀ c ∈ isoformat dt, 32 ≤ c.toNat ∧ c.toNat < 127 ∧ c ≠ '"' ∧ c ≠ '\\' := by
  intro c hc
  rcases isoformat_chars dt c hc with hd | rfl | rfl | rfl | rfl
  · obtain ⟨hl, hr⟩ := digit_toNat c hd
    refine ⟨by omega, by omega, ?_, ?_⟩
    · intro h; subst h; revert hl; decide
    · intro h; subst h; revert hr; decide
  · decide
  · decide
  · decide
  · decide

theorem pyJsonEscapeChar_plain (c : Char) (h1 : 32 ≤ c.toNat) (h2 : c.toNat < 127)
    (h3 : c ≠ '"') (h4 : c ≠ '\\') : pyJsonEscapeChar c = [c] := by
  simp only [pyJsonEscapeChar]
  rw [if_neg h3, if_neg h4, if_neg (by omega), if_neg (by omega), if_neg (by omega),
    if_neg (by omega), if_neg (by omega), if_neg (by omega)]

theorem pyJsonEscStr_plain (s : List Char)
    (h : ∀ c ∈ s, 32 ≤ c.toNat ∧ c.toNat < 127 ∧ c ≠ '"' ∧ c ≠ '\\') :
    pyJsonEscStr s = s := by
  induction s with
  | nil => rfl
  | cons c cs ih =>
    obtain ⟨h1, h2, h3, h4⟩ := h c (by simp)
    simp only [pyJsonEscStr, pyJsonEscapeChar_plain c h1 h2 h3 h4]
    rw [ih (fun x hx => h x (by simp [hx]))]
    rfl

theorem parseJStringBody_plain (rest : List Char) : ∀ s : List Char,
    (∀ c ∈ s, 32 ≤ c.toNat ∧ c.toNat < 127 ∧ c ≠ '"' ∧ c ≠ '\\') →
    parseJStringBody (s ++ '"' :: rest) = .ok (s, rest) := by
  intro s
  induction s with
  | nil =>
    intro _
    show parseJStringBody ('"' :: rest) = .ok ([], rest)
    rw [parseJStringBody.eq_def]
    simp
  | cons c cs ih =>
    intro h
    obtain ⟨h1, h2, h3, h4⟩ := h c (by simp)
    show parseJStringBody (c :: (cs ++ '"' :: rest)) = _
    rw [parseJStringBody.eq_def]
    simp only []
    rw [if_neg h3, if_neg h4, if_neg (by omega)]
    rw [ih (fun x hx => h x (by simp [hx]))]

theorem natRepr_length_one_iff (m : Nat) (h : m < 10) : (natRepr m).length = 1 := by
  unfold natRepr
  simp [h]

theorem parseJNumBody_natRepr (m : Nat) (neg : Bool) (rest : List Char)
    (hrest : ∀ c, rest.head? = some c →
      (c.isDigit = false ∧ c ≠ '.' ∧ c ≠ 'e' ∧ c ≠ 'E')) :
    parseJNumBody neg (natRepr m ++ rest) =
      .ok (.jint (if neg then -(m : Int) else (m : Int)), rest) := by
  obtain ⟨ht, hd⟩ := takeWhile_append_not Char.isDigit rest
    (fun c hc => (hrest c hc).1) (natRepr m) (natRepr_all_digits m)
  unfold parseJNumBody
  rw [ht, hd]
  rw [if_neg (by simp [natRepr_ne_nil m])]
  have hlead : ¬ ((natRepr m).length > 1 ∧ (natRepr m).headI = '0') := by
    rintro ⟨hl, hh⟩
    have hm : ¬ m < 10 := by
      intro hsmall
      rw [natRepr_length_one_iff m hsmall] at hl
      omega
    exact natRepr_headI_ne_zero m (by omega) hh
  rw [if_neg hlead]
  cases rest with
  | nil => simp [digitsVal_natRepr]
  | cons r rs =>
    obtain ⟨-, hdot, he, hE⟩ := hrest r rfl
    split
    · next heq => rw [List.cons.injEq] at heq; exact absurd heq.1 hdot
    · next heq => rw [List.cons.injEq] at heq; exact absurd heq.1 he
    · next heq => rw [List.cons.injEq] at heq; exact absurd heq.1 hE
    · simp [digitsVal_natRepr]

theorem skipWs_cons_not (c : Char) (l : List Char) (h : jsonWs c = false) :
    skipWs (c :: l) = c :: l := by
  simp [skipWs, List.dropWhile_cons, h]

theorem digit_dispatch (c : Char) (h : c.isDigit = true) :
    c ≠ '"' ∧ c ≠ lbrace ∧ c ≠ '[' ∧ c ≠ 't' ∧ c ≠ 'f' ∧ c ≠ 'n' ∧ c ≠ 'N' ∧
    c ≠ 'I' ∧ c ≠ '-' ∧ jsonWs c = false := by
  obtain ⟨hl, hr⟩ := digit_toNat c h
  refine ⟨?_, ?_, ?_, ?_, ?_, ?_, ?_, ?_, ?_, ?_⟩
  · intro hh; subst hh; revert hl; decide
  · intro hh; subst hh; revert hr; decide
  · intro hh; subst hh; revert hr; decide
  · intro hh; subst hh; revert hr; decide
  · intro hh; subst hh; revert hr; decide
  · intro hh; subst hh; revert hr; decide
  · intro hh; subst hh; revert hr; decide
  · intro hh; subst hh; revert hr; decide
  · intro hh; subst hh; revert hl; decide
  · rw [Bool.eq_false_iff]
    intro hw
    simp only [jsonWs, decide_eq_true_eq] at hw
    rcases hw with hw | hw | hw | hw
    · subst hw; revert hl; decide
    · omega
    · omega
    · omega

/-- parseJValue on a quoted string of plain characters. -/
theorem parseJValue_string (d : Nat) (s rest : List Char)
    (hp : ∀ c ∈ s, 32 ≤ c.toNat ∧ c.toNat < 127 ∧ c ≠ '"' ∧ c ≠ '\\') :
    parseJValue (d + 1) ('"' :: (s ++ '"' :: rest)) = .ok (.jstr s, rest) := by
  rw [parseJValue.eq_def]
  simp only []
  rw [skipWs_cons_not _ _ (by decide)]
  simp only [if_true]
  rw [parseJStringBody_plain rest s hp]

/-- parseJValue on a Python int rendering. -/
theorem parseJValue_intRepr (d : Nat) (n : Int) (rest : List Char)
    (hrest : ∀ c, rest.head? = some c →
      (c.isDigit = false ∧ c ≠ '.' ∧ c ≠ 'e' ∧ c ≠ 'E')) :
    parseJValue (d + 1) (intRepr n ++ rest) = .ok (.jint n, rest) := by
  unfold intRepr
  by_cases hn : n < 0
  · rw [if_pos hn]
    simp only [List.cons_append]
    rw [parseJValue.eq_def]
    simp only []
    rw [skipWs_cons_not _ _ (by decide)]
    simp only []
    rw [if_neg (by decide), if_neg (by decide), if_neg (by decide), if_neg (by decide),
      if_neg (by decide), if_neg (by decide), if_neg (by decide), if_neg (by decide)]
    simp only [if_true]
    cases hnr : natRepr (-n).toNat with
    | nil => exact absurd hnr (natRepr_ne_nil _)
    | cons c0 cs0 =>
      have hc0 : c0.isDigit = true := natRepr_all_digits _ c0 (by rw [hnr]; simp)
      simp only [List.cons_append]
      split
      · next heq =>
        rw [List.cons.injEq] at heq
        obtain ⟨rfl, -⟩ := heq
        obtain ⟨hl, hr⟩ := digit_toNat _ hc0
        exact absurd hr (by decide)
      · next hne =>
        have hglue : c0 :: (cs0 ++ rest) = natRepr (-n).toNat ++ rest := by
          rw [hnr]
          rfl
        rw [hglue, parseJNumBody_natRepr _ true rest hrest]
        have hval : -(((-n).toNat : Nat) : Int) = n := by omega
        rw [if_pos rfl]
        rw [hval]
  · rw [if_neg hn]
    cases hnr : natRepr n.toNat with
    | nil => exact absurd hnr (natRepr_ne_nil _)
    | cons c0 cs0 =>
      have hc0 : c0.isDigit = true := natRepr_all_digits _ c0 (by rw [hnr]; simp)
      obtain ⟨d1, d2, d3, d4, d5, d6, d7, d8, d9, d10⟩ := digit_dispatch c0 hc0
      simp only [List.cons_append]
      rw [parseJValue.eq_def]
      simp only []
      rw [skipWs_cons_not _ _ d10]
      simp only []
      rw [if_neg d1, if_neg d2, if_neg d3, if_neg d4, if_neg d5, if_neg d6, if_neg d7,
        if_neg d8, if_neg d9, if_pos hc0]
      have hglue : c0 :: (cs0 ++ rest) = natRepr n.toNat ++ rest := by
        rw [hnr]
        rfl
      rw [hglue, parseJNumBody_natRepr _ false rest hrest]
      have hval : ((n.toNat : Nat) : Int) = n := by omega
      rw [if_neg (by simp), hval]

theorem pyJsonDumps_payload (dt : PyDateTime) (n : Int) :
    pyJsonDumps (.jobj [("created_at".toList, .jstr (isoformat dt)),
      ("id".toList, .jint n)]) =
    lbrace :: '"' :: ("created_at".toList ++ '"' :: ':' :: '"' ::
      (isoformat dt ++ '"' :: ',' :: '"' ::
        ("id".toList ++ '"' :: ':' :: (intRepr n ++ [rbrace])))) := by
  simp only [pyJsonDumps, pyJsonDumpsFields, pyJsonDumpStr]
  rw [pyJsonEscStr_plain ("created_at".toList) (by decide),
    pyJsonEscStr_plain ("id".toList) (by decide),
    pyJsonEscStr_plain (isoformat dt) (isoformat_plain dt)]
  simp [List.append_assoc]

set_option maxHeartbeats 1000000 in
/-- Walk of the parser over the serialised two member cursor payload, with
the created_at string and the id value text abstracted. -/
theorem parseJValue_payload_gen (d : Nat) (iso vtxt : List Char)
    (hiso : ∀ c ∈ iso, 32 ≤ c.toNat ∧ c.toNat < 127 ∧ c ≠ '"' ∧ c ≠ '\\')
    (v : JVal) (hval : parseJValue (d + 1) vtxt = .ok (v, [rbrace])) :
    parseJValue (d + 2)
      (lbrace :: '"' :: ("created_at".toList ++ '"' :: ':' :: '"' ::
        (iso ++ '"' :: ',' :: '"' ::
          ("id".toList ++ '"' :: ':' :: vtxt)))) =
    .ok (.jobj [("created_at".toList, .jstr iso),
      ("id".toList, v)], []) := by
  rw [parseJValue.eq_def]
  simp only []
  rw [skipWs_cons_not _ _ (by decide)]
  simp only []
  rw [if_neg (by decide)]
  simp only [if_true]
  rw [parseJMembers.eq_def]
  simp only [List.length_cons]
  rw [skipWs_cons_not _ _ (by decide)]
  simp only []
  rw [if_neg (by decide)]
  simp only [if_true]
  rw [parseJStringBody_plain _ _ (by decide)]
  simp only []
  rw [skipWs_cons_not _ _ (by decide)]
  simp only []
  rw [parseJValue_string d iso _ hiso]
  simp only []
  rw [skipWs_cons_not _ _ (by decide)]
  simp only []
  rw [parseJMembers.eq_def]
  simp only [List.length_cons]
  rw [skipWs_cons_not _ _ (by decide)]
  simp only []
  rw [if_neg (by simp)]
  simp only [if_true]
  rw [parseJStringBody_plain _ _ (by decide)]
  simp only []
  rw [skipWs_cons_not _ _ (by decide)]
  simp only []
  rw [hval]
  simp only []
  rw [skipWs_cons_not _ _ (by decide)]
  split
  case _ h => injection h with h1 h2; exact absurd h1 (by decide)
  case _ c r4 hne h =>
    injection h with h1 h2
    subst h1; subst h2
    rw [if_pos rfl]
    simp only [List.reverse_cons, List.reverse_nil, List.nil_append,
      List.cons_append]
  case _ h => exact absurd h (by decide)

/-- Characters of a Python int rendering are digits or a leading minus. -/
theorem intRepr_chars (n : Int) : ∀ c ∈ intRepr n, c.isDigit = true ∨ c = '-' := by
  unfold intRepr
  split
  · intro c hc
    rcases List.mem_cons.mp hc with rfl | h
    · exact Or.inr rfl
    · exact Or.inl (natRepr_all_digits _ c h)
  · intro c hc
    exact Or.inl (natRepr_all_digits _ c hc)

/-- Characters of a Python int rendering are ASCII. -/
theorem intRepr_lt128 (n : Int) : ∀ c ∈ intRepr n, c.toNat < 128 := by
  intro c hc
  rcases intRepr_chars n c hc with hd | hm
  · obtain ⟨-, hr⟩ := digit_toNat c hd
    omega
  · subst hm
    decide

/-- Characters of an isoformat rendering are ASCII. -/
theorem isoformat_lt128 (dt : PyDateTime) : ∀ c ∈ isoformat dt, c.toNat < 128 := by
  intro c hc
  obtain ⟨-, h2, -, -⟩ := isoformat_plain dt c hc
  omega

/-- The serialised cursor payload is pure ASCII. -/
theorem payload_ascii (dt : PyDateTime) (n : Int) :
    ∀ c ∈ pyJsonDumps (.jobj [("created_at".toList, .jstr (isoformat dt)),
      ("id".toList, .jint n)]), c.toNat < 128 := by
  rw [pyJsonDumps_payload]
  simp only [List.forall_mem_cons, List.forall_mem_append]
  repeat' apply And.intro
  all_goals first
    | decide
    | exact isoformat_lt128 dt
    | exact intRepr_lt128 n

/-- json.loads recovers the cursor payload object from its serialisation. -/
theorem pyJsonLoads_payload (dt : PyDateTime) (n : Int) :
    pyJsonLoads pyRecursionLimit (pyJsonDumps (.jobj
      [("created_at".toList, .jstr (isoformat dt)), ("id".toList, .jint n)])) =
    .ok (.jobj [("created_at".toList, .jstr (isoformat dt)),
      ("id".toList, .jint n)]) := by
  unfold pyJsonLoads
  rw [pyJsonDumps_payload]
  have e : pyRecursionLimit = 998 + 2 := rfl
  rw [e, parseJValue_payload_gen 998 (isoformat dt) (intRepr n ++ [rbrace])
    (isoformat_plain dt) (.jint n) (parseJValue_intRepr 998 n [rbrace] (by decide))]
  rfl

/-- The body of decode_cursor recovers exactly the encoded pair. -/
theorem decodeCursorBody_roundtrip (dt : PyDateTime) (n : Int) (hv : dt.Valid) :
    decodeCursorBody (encode_cursor dt n) = .ok (dt, n) := by
  unfold decodeCursorBody encode_cursor
  rw [b64_roundtrip _ (fun b hb =>
    lt_trans (utf8Encode_ascii_bytes _ (payload_ascii dt n) b hb) (by omega))]
  simp only []
  rw [utf8_ascii_roundtrip _ (payload_ascii dt n)]
  simp only []
  rw [pyJsonLoads_payload dt n]
  simp only []
  have h1 : pySubscript (.jobj [("created_at".toList, .jstr (isoformat dt)),
      ("id".toList, .jint n)]) "created_at".toList = .ok (.jstr (isoformat dt)) := by
    rfl
  have h2 : pySubscript (.jobj [("created_at".toList, .jstr (isoformat dt)),
      ("id".toList, .jint n)]) "id".toList = .ok (.jint n) := by
    rfl
  rw [h1]
  simp only []
  rw [iso_roundtrip dt hv]
  simp only []
  rw [h2]
  rfl

/-- The first base64 character of a chunk encoding. -/
theorem b64EncodeChunks_head (b : Nat) (rest : List Nat) :
    ∃ t, b64EncodeChunks (b :: rest) = b64UrlChar (b / 4) :: t := by
  match rest with
  | [] => exact ⟨_, rfl⟩
  | [b2] => exact ⟨_, rfl⟩
  | b2 :: b3 :: r => exact ⟨_, rfl⟩

/-- An encoded cursor is never the empty string. -/
theorem encode_cursor_ne_nil (dt : PyDateTime) (n : Int) :
    encode_cursor dt n ≠ [] := by
  unfold encode_cursor
  rw [pyJsonDumps_payload]
  have he : ∀ r : List Char, utf8Encode (lbrace :: r) = 123 :: utf8Encode r :=
    fun r => rfl
  rw [he]
  obtain ⟨t, ht⟩ := b64EncodeChunks_head 123 _
  rw [ht]
  exact rstripPad_cons_ne_nil _ _ (b64UrlChar_lt_ne_eq (123 / 4) (by omega))

/-- C7: Cursor round trip.  For every representable datetime and every
integer id, decoding the encoded cursor returns exactly that pair. -/
theorem cursor_roundtrip (dt : PyDateTime) (n : Int) (hv : dt.Valid) :
    decode_cursor (some (encode_cursor dt n)) = .ok (some (dt, n)) := by
  unfold decode_cursor
  simp only []
  rw [if_neg (fun hemp => encode_cursor_ne_nil dt n (List.isEmpty_iff.mp hemp))]
  rw [decodeCursorBody_roundtrip dt n hv]

theorem cursor_roundtrip_witness :
    (⟨2024, 1, 2, 3, 4, 5, 123456⟩ : PyDateTime).Valid ∧
    decode_cursor (some (encode_cursor ⟨2024, 1, 2, 3, 4, 5, 123456⟩ 7)) =
      .ok (some (⟨2024, 1, 2, 3, 4, 5, 123456⟩, 7)) :=
  ⟨by decide, cursor_roundtrip ⟨2024, 1, 2, 3, 4, 5, 123456⟩ 7 (by decide)⟩

/-- The scanner accepts the JSON Infinity literal as a non finite float. -/
theorem parseJValue_infinity :
    parseJValue (998 + 1) ('I' :: ("nfinity".toList ++ [rbrace])) =
      .ok (.jinf false, [rbrace]) := by
  rw [parseJValue.eq_def]
  simp only []
  rw [skipWs_cons_not _ _ (by decide)]
  simp only []
  rw [if_neg (by decide), if_neg (by decide), if_neg (by decide), if_neg (by decide),
    if_neg (by decide), if_neg (by decide), if_neg (by decide)]
  simp only [if_true]
  rw [if_pos (by decide)]
  rfl

set_option maxHeartbeats 1000000 in
/-- C8 counterexample: a well formed base64 cursor whose JSON id field is
the Infinity literal makes decode_cursor raise OverflowError, which the
except clause does not catch, rather than return the absent value. -/
theorem cursor_decode_overflow_counterexample :
    decode_cursor (some
      "eyJjcmVhdGVkX2F0IjoiMjAyNC0wMS0wMVQwMDowMDowMCIsImlkIjpJbmZpbml0eX0".toList) =
    .error .overflowError := by
  have hshape : urlsafeB64Decode (_pad_base64
      "eyJjcmVhdGVkX2F0IjoiMjAyNC0wMS0wMVQwMDowMDowMCIsImlkIjpJbmZpbml0eX0".toList) =
      .ok (utf8Encode (lbrace :: '"' :: ("created_at".toList ++ '"' :: ':' :: '"' ::
        ("2024-01-01T00:00:00".toList ++ '"' :: ',' :: '"' ::
          ("id".toList ++ '"' :: ':' :: ('I' :: ("nfinity".toList ++ [rbrace]))))))) := by
    decide
  have hloads : pyJsonLoads pyRecursionLimit
      (lbrace :: '"' :: ("created_at".toList ++ '"' :: ':' :: '"' ::
        ("2024-01-01T00:00:00".toList ++ '"' :: ',' :: '"' ::
          ("id".toList ++ '"' :: ':' :: ('I' :: ("nfinity".toList ++ [rbrace])))))) =
      .ok (.jobj [("created_at".toList, .jstr "2024-01-01T00:00:00".toList),
        ("id".toList, .jinf false)]) := by
    unfold pyJsonLoads
    have e : pyRecursionLimit = 998 + 2 := rfl
    rw [e, parseJValue_payload_gen 998 "2024-01-01T00:00:00".toList
      ('I' :: ("nfinity".toList ++ [rbrace])) (by decide) (.jinf false)
      parseJValue_infinity]
    rfl
  unfold decode_cursor
  simp only []
  rw [if_neg (by decide)]
  unfold decodeCursorBody
  rw [hshape]
  simp only []
  rw [utf8_ascii_roundtrip _ (by decide)]
  simp only []
  rw [hloads]
  rfl

/-- C8: amended.  decode_cursor never propagates the caught exception
classes: for every input it returns a decoded pair or the absent value,
except that a cursor whose JSON id field is a non finite number propagates
OverflowError and deeply nested JSON propagates RecursionError; a missing
or empty cursor decodes to the absent value. -/
theorem cursor_decode_exception_envelope (cursor : Option (List Char)) :
    ((∃ r, decode_cursor cursor = .ok r) ∨
      decode_cursor cursor = .error .overflowError ∨
      decode_cursor cursor = .error .recursionError) ∧
    decode_cursor none = .ok none ∧
    decode_cursor (some []) = .ok none := by
  refine ⟨?_, rfl, rfl⟩
  match cursor with
  | none => exact Or.inl ⟨none, rfl⟩
  | some cs =>
    unfold decode_cursor
    simp only []
    by_cases hemp : cs.isEmpty
    · rw [if_pos hemp]
      exact Or.inl ⟨none, rfl⟩
    · rw [if_neg hemp]
      cases hbody : decodeCursorBody cs with
      | ok p => exact Or.inl ⟨some p, rfl⟩
      | error e =>
        cases e with
        | valueError => exact Or.inl ⟨none, rfl⟩
        | typeError => exact Or.inl ⟨none, rfl⟩
        | keyError => exact Or.inl ⟨none, rfl⟩
        | overflowError => exact Or.inr (Or.inl rfl)
        | recursionError => exact Or.inr (Or.inr rfl)

end Paleta
